import Mathlib

/-!
# quickhull: half-edge mesh, plane and geometric predicates

A shallow embedding of `Structs/HalfEdgeMesh.hpp`, `Structs/Plane.hpp`,
`Structs/Ray.hpp` and `MathUtils.hpp`, followed by theorems about it.

Conventions of the embedding

* `std::vector<X>` is a `List X`; `v[i]` is `v[i]?` and an access outside the
  vector (undefined behaviour in the source) makes the operation return `none`.
* `std::unique_ptr<std::vector<IndexType>>` is an `Option IndexVector`; `none`
  is the null pointer.  Dereferencing a null pointer makes the operation
  return `none`.
* A failing `assert` makes the operation return `none`.
* `IndexType` comes from `Types.hpp`, which is not among the sources.  Index
  values are natural numbers and the largest value of the type,
  `std::numeric_limits<IndexType>::max()`, is the parameter `indexMax` of the
  definitions that use it.  A `size_t` converted to `IndexType` is reduced
  modulo `indexMax + 1`.
* `size_t` arithmetic is reduced modulo `2 ^ sizeBits`, `sizeBits` being a
  parameter of the one definition that computes with it.
* The scalar type `T` of the templates is a type parameter; the theorems that
  are stated over exact arithmetic take it to be a linearly ordered field, the
  others assume no law of arithmetic.
-/

namespace quickhull

/-! ## Vectors, planes and rays -/

/-- The part of `Ogre::Vector3` the sources use: three coordinates. -/
structure Vector3 (T : Type) where
  x : T
  y : T
  z : T
  deriving DecidableEq, Repr

namespace Vector3

variable {T : Type}

/-- `Ogre::Vector3::dotProduct`. -/
def dotProduct [Add T] [Mul T] (u v : Vector3 T) : T :=
  u.x * v.x + u.y * v.y + u.z * v.z

/-- `Ogre::Vector3::squaredLength`. -/
def squaredLength [Add T] [Mul T] (u : Vector3 T) : T :=
  u.x * u.x + u.y * u.y + u.z * u.z

/-- `Ogre::Vector3::crossProduct`. -/
def crossProduct [Sub T] [Mul T] (u v : Vector3 T) : Vector3 T :=
  ⟨u.y * v.z - u.z * v.y, u.z * v.x - u.x * v.z, u.x * v.y - u.y * v.x⟩

/-- `Ogre::Vector3::operator-` (binary). -/
def sub [Sub T] (u v : Vector3 T) : Vector3 T :=
  ⟨u.x - v.x, u.y - v.y, u.z - v.z⟩

/-- `Ogre::Vector3::operator+`. -/
def add [Add T] (u v : Vector3 T) : Vector3 T :=
  ⟨u.x + v.x, u.y + v.y, u.z + v.z⟩

/-- `Ogre::Vector3::operator-` (unary). -/
def neg [Neg T] (u : Vector3 T) : Vector3 T :=
  ⟨-u.x, -u.y, -u.z⟩

/-- Scalar times vector. -/
def smul [Mul T] (k : T) (u : Vector3 T) : Vector3 T :=
  ⟨k * u.x, k * u.y, k * u.z⟩

end Vector3

/-- `Plane<T>`: normal, offset and squared length of the normal. -/
structure Plane (T : Type) where
  m_N : Vector3 T
  m_D : T
  m_sqrNLength : T
  deriving DecidableEq, Repr

namespace Plane

variable {T : Type}

/-- `Plane(N, P)`: the plane with normal `N` through the point `P`. -/
def ofNormalPoint [Add T] [Mul T] [Neg T] (N P : Vector3 T) : Plane T :=
  { m_N := N
    m_D := -(N.dotProduct P)
    m_sqrNLength := N.x * N.x + N.y * N.y + N.z * N.z }

/-- `Plane::isPointOnPositiveSide`. -/
def isPointOnPositiveSide [Add T] [Mul T] [Zero T] [LE T] [DecidableRel (fun (a b : T) => a ≤ b)]
    (p : Plane T) (Q : Vector3 T) : Bool :=
  let d := p.m_N.dotProduct Q + p.m_D
  if 0 ≤ d then true else false

end Plane

/-- `Ray<T>`: origin `m_S` and direction `m_V`. -/
structure Ray (T : Type) where
  m_S : Vector3 T
  m_V : Vector3 T
  deriving DecidableEq, Repr

namespace mathutils

variable {T : Type}

/-- `mathutils::getSquaredDistanceBetweenPointAndRay`. -/
def getSquaredDistanceBetweenPointAndRay [Add T] [Sub T] [Mul T] [Div T]
    (p : Vector3 T) (r : Ray T) : T :=
  let s := p.sub r.m_S
  let t := s.dotProduct r.m_V
  s.squaredLength - t * t / r.m_V.squaredLength

/-- `mathutils::getSignedDistanceToPlane`. -/
def getSignedDistanceToPlane [Add T] [Mul T] (v : Vector3 T) (p : Plane T) : T :=
  p.m_N.dotProduct v + p.m_D

/-- `mathutils::getTriangleNormal`. -/
def getTriangleNormal [Sub T] [Mul T] (a b c : Vector3 T) : Vector3 T :=
  let x := a.x - c.x
  let y := a.y - c.y
  let z := a.z - c.z
  let rhsx := b.x - c.x
  let rhsy := b.y - c.y
  let rhsz := b.z - c.z
  let px := y * rhsz - z * rhsy
  let py := z * rhsx - x * rhsz
  let pz := x * rhsy - y * rhsx
  ⟨px, py, pz⟩

end mathutils

/-! ## The half-edge mesh -/

/-- `Mesh::HalfEdge`. -/
structure HalfEdge where
  m_endVertex : Nat
  m_opp : Nat
  m_face : Nat
  m_next : Nat
  deriving DecidableEq, Repr

/-- A `std::vector<IndexType>`: its elements and its capacity. -/
structure IndexVector where
  elems : List Nat
  capacity : Nat
  deriving DecidableEq, Repr

namespace IndexVector

/-- `std::vector::size`. -/
def size (v : IndexVector) : Nat := v.elems.length

/-- `std::vector::clear`: removes the elements, keeps the capacity. -/
def clear (v : IndexVector) : IndexVector := { v with elems := [] }

/-- A default-constructed `std::vector<IndexType>`. -/
def empty : IndexVector := { elems := [], capacity := 0 }

end IndexVector

/-- `Mesh::Face`.  `m_P` is `none` while the plane holds the indeterminate
value left by the defaulted `Plane()`. -/
structure Face (T : Type) where
  m_he : Nat
  m_P : Option (Plane T)
  m_mostDistantPointDist : T
  m_mostDistantPoint : Nat
  m_visibilityCheckedOnIteration : Nat
  m_isVisibleFaceOnCurrentIteration : Nat
  m_inFaceStack : Nat
  m_horizonEdgesOnCurrentIteration : Nat
  m_pointsOnPositiveSide : Option IndexVector
  deriving DecidableEq, Repr

namespace Face

variable {T : Type}

/-- `Face::Face()`. -/
def new [Zero T] (indexMax : Nat) : Face T :=
  { m_he := indexMax
    m_P := none
    m_mostDistantPointDist := 0
    m_mostDistantPoint := 0
    m_visibilityCheckedOnIteration := 0
    m_isVisibleFaceOnCurrentIteration := 0
    m_inFaceStack := 0
    m_horizonEdgesOnCurrentIteration := 0
    m_pointsOnPositiveSide := none }

/-- `Face::disable`. -/
def disable (indexMax : Nat) (f : Face T) : Face T :=
  { f with m_he := indexMax }

/-- `Face::isDisabled`. -/
def isDisabled (indexMax : Nat) (f : Face T) : Bool :=
  f.m_he == indexMax

end Face

/-- The data members of `Mesh<T>`. -/
structure Mesh (T : Type) where
  m_faces : List (Face T)
  m_halfEdges : List HalfEdge
  m_disabledFaces : List Nat
  m_disabledHalfEdges : List Nat
  m_indexVectorPool : List (Option IndexVector)
  deriving DecidableEq, Repr

namespace Mesh

variable {T : Type}

/-- `Mesh::Mesh()`. -/
def empty : Mesh T :=
  { m_faces := [], m_halfEdges := [], m_disabledFaces := [], m_disabledHalfEdges := [],
    m_indexVectorPool := [] }

/-- `Mesh::getIndexVectorFromPool`: the returned pointer and the new mesh. -/
def getIndexVectorFromPool (m : Mesh T) : Option (Option IndexVector × Mesh T) :=
  if m.m_indexVectorPool.length = 0 then
    some (some IndexVector.empty, m)
  else
    match m.m_indexVectorPool.getLast? with
    | none => none
    | some r =>
      let pool := m.m_indexVectorPool.dropLast
      match r with
      | none => none
      | some v => some (some v.clear, { m with m_indexVectorPool := pool })

/-- `Mesh::reclaimToIndexVectorPool`. -/
def reclaimToIndexVectorPool (sizeBits : Nat) (m : Mesh T) (ptr : Option IndexVector) :
    Option (Mesh T) :=
  match ptr with
  | none => none
  | some v =>
    let oldSize := v.size
    if ((oldSize + 1) * 128) % 2 ^ sizeBits < v.capacity then
      some m
    else
      some { m with m_indexVectorPool := m.m_indexVectorPool ++ [some v] }

/-- `Mesh::addFace`: the returned index and the new mesh.  With a non-empty
pool the last pooled index is popped, after the two assertions on its face;
otherwise a `Face()` is appended and `m_faces.size() - 1` is returned. -/
def addFace [Zero T] (indexMax : Nat) (m : Mesh T) : Option (Nat × Mesh T) :=
  if m.m_disabledFaces.length ≠ 0 then
    match m.m_disabledFaces.getLast? with
    | none => none
    | some index =>
      match m.m_faces[index]? with
      | none => none
      | some f =>
        -- assert(f.isDisabled()); assert(!f.m_pointsOnPositiveSide);
        if f.isDisabled indexMax = true ∧ f.m_pointsOnPositiveSide = none then
          let f1 := { f with m_mostDistantPointDist := 0 }
          some (index, { m with m_faces := m.m_faces.set index f1
                                m_disabledFaces := m.m_disabledFaces.dropLast })
        else none
  else
    let faces := m.m_faces ++ [Face.new indexMax]
    some ((faces.length - 1) % (indexMax + 1), { m with m_faces := faces })

/-- `Mesh::addHalfEdge`: the returned index and the new mesh.  The appended
record is value-initialised by `emplace_back()`: all four fields are zero. -/
def addHalfEdge (indexMax : Nat) (m : Mesh T) : Option (Nat × Mesh T) :=
  if m.m_disabledHalfEdges.length ≠ 0 then
    match m.m_disabledHalfEdges.getLast? with
    | none => none
    | some index => some (index, { m with m_disabledHalfEdges := m.m_disabledHalfEdges.dropLast })
  else
    let hes := m.m_halfEdges ++ [⟨0, 0, 0, 0⟩]
    some ((hes.length - 1) % (indexMax + 1), { m with m_halfEdges := hes })

/-- `Mesh::disableFace`: the returned pointer and the new mesh. -/
def disableFace (indexMax : Nat) (m : Mesh T) (faceIndex : Nat) :
    Option (Option IndexVector × Mesh T) :=
  match m.m_faces[faceIndex]? with
  | none => none
  | some f =>
    let f1 := f.disable indexMax
    some (f1.m_pointsOnPositiveSide,
      { m with m_faces := m.m_faces.set faceIndex { f1 with m_pointsOnPositiveSide := none }
               m_disabledFaces := m.m_disabledFaces ++ [faceIndex] })

/-- `Mesh::disableHalfEdge`. -/
def disableHalfEdge (m : Mesh T) (heIndex : Nat) : Mesh T :=
  { m with m_disabledHalfEdges := m.m_disabledHalfEdges ++ [heIndex] }

/-- `Mesh::Mesh(a, b, c, d)`: the initial tetrahedron. -/
def tetrahedron [Zero T] (indexMax : Nat) (a b c d : Nat) : Mesh T :=
  let AB : HalfEdge := { m_endVertex := b, m_opp := 6, m_face := 0, m_next := 1 }
  let BC : HalfEdge := { m_endVertex := c, m_opp := 9, m_face := 0, m_next := 2 }
  let CA : HalfEdge := { m_endVertex := a, m_opp := 3, m_face := 0, m_next := 0 }
  let AC : HalfEdge := { m_endVertex := c, m_opp := 2, m_face := 1, m_next := 4 }
  let CD : HalfEdge := { m_endVertex := d, m_opp := 11, m_face := 1, m_next := 5 }
  let DA : HalfEdge := { m_endVertex := a, m_opp := 7, m_face := 1, m_next := 3 }
  let BA : HalfEdge := { m_endVertex := a, m_opp := 0, m_face := 2, m_next := 7 }
  let AD : HalfEdge := { m_endVertex := d, m_opp := 5, m_face := 2, m_next := 8 }
  let DB : HalfEdge := { m_endVertex := b, m_opp := 10, m_face := 2, m_next := 6 }
  let CB : HalfEdge := { m_endVertex := b, m_opp := 1, m_face := 3, m_next := 10 }
  let BD : HalfEdge := { m_endVertex := d, m_opp := 8, m_face := 3, m_next := 11 }
  let DC : HalfEdge := { m_endVertex := c, m_opp := 4, m_face := 3, m_next := 9 }
  let ABC : Face T := { Face.new indexMax with m_he := 0 }
  let ACD : Face T := { Face.new indexMax with m_he := 3 }
  let BAD : Face T := { Face.new indexMax with m_he := 6 }
  let CBD : Face T := { Face.new indexMax with m_he := 9 }
  { m_faces := [ABC, ACD, BAD, CBD]
    m_halfEdges := [AB, BC, CA, AC, CD, DA, BA, AD, DB, CB, BD, DC]
    m_disabledFaces := []
    m_disabledHalfEdges := []
    m_indexVectorPool := [] }

/-- `Mesh::getVertexIndicesOfFace`. -/
def getVertexIndicesOfFace (m : Mesh T) (f : Face T) : Option (Nat × Nat × Nat) :=
  match m.m_halfEdges[f.m_he]? with
  | none => none
  | some he0 =>
    match m.m_halfEdges[he0.m_next]? with
    | none => none
    | some he1 =>
      match m.m_halfEdges[he1.m_next]? with
      | none => none
      | some he2 => some (he0.m_endVertex, he1.m_endVertex, he2.m_endVertex)

/-- `Mesh::getVertexIndicesOfHalfEdge`. -/
def getVertexIndicesOfHalfEdge (m : Mesh T) (he : HalfEdge) : Option (Nat × Nat) :=
  match m.m_halfEdges[he.m_opp]? with
  | none => none
  | some o => some (o.m_endVertex, he.m_endVertex)

/-- `Mesh::getHalfEdgeIndicesOfFace`. -/
def getHalfEdgeIndicesOfFace (m : Mesh T) (f : Face T) : Option (Nat × Nat × Nat) :=
  match m.m_halfEdges[f.m_he]? with
  | none => none
  | some he0 =>
    match m.m_halfEdges[he0.m_next]? with
    | none => none
    | some he1 => some (f.m_he, he0.m_next, he1.m_next)

end Mesh

/-! ## Sequences of calls -/

/-- Reading `m_halfEdges[m_halfEdges[e].m_opp].m_opp`. -/
def Mesh.oppOfOpp {T : Type} (m : Mesh T) (e : Nat) : Option Nat :=
  match m.m_halfEdges[e]? with
  | none => none
  | some h =>
    match m.m_halfEdges[h.m_opp]? with
    | none => none
    | some o => some o.m_opp

/-- A call of one of the four mutating operations of the mesh. -/
inductive MeshOp where
  | addFace
  | addHalfEdge
  | disableFace (faceIndex : Nat)
  | disableHalfEdge (heIndex : Nat)
  deriving DecidableEq, Repr

/-- The mesh after one call; `none` when the call has no defined result. -/
def MeshOp.apply {T : Type} [Zero T] (indexMax : Nat) (m : Mesh T) : MeshOp → Option (Mesh T)
  | .addFace =>
    match m.addFace indexMax with
    | none => none
    | some (_, m1) => some m1
  | .addHalfEdge =>
    match m.addHalfEdge indexMax with
    | none => none
    | some (_, m1) => some m1
  | .disableFace faceIndex =>
    match m.disableFace indexMax faceIndex with
    | none => none
    | some (_, m1) => some m1
  | .disableHalfEdge heIndex => some (m.disableHalfEdge heIndex)

/-- The mesh after a sequence of calls, made from left to right. -/
def runOps {T : Type} [Zero T] (indexMax : Nat) (m : Mesh T) : List MeshOp → Option (Mesh T)
  | [] => some m
  | op :: ops =>
    match op.apply indexMax m with
    | none => none
    | some m1 => runOps indexMax m1 ops

/-- The calls `disableFace(f1)`, ..., `disableFace(fk)` in this order. -/
def disableFaces {T : Type} (indexMax : Nat) (m : Mesh T) : List Nat → Option (Mesh T)
  | [] => some m
  | f :: fs =>
    match m.disableFace indexMax f with
    | none => none
    | some (_, m1) => disableFaces indexMax m1 fs

/-- The call `addFace()` made `k` times: the returned indices in the order of
the calls, and the final mesh. -/
def addFaces {T : Type} [Zero T] (indexMax : Nat) (m : Mesh T) : Nat → Option (List Nat × Mesh T)
  | 0 => some ([], m)
  | k + 1 =>
    match m.addFace indexMax with
    | none => none
    | some (i, m1) =>
      match addFaces indexMax m1 k with
      | none => none
      | some (is, m2) => some (i :: is, m2)

/-- A step of the face-pool protocol: `addFace()`, `disableFace(f)` on a face
that is in range and not disabled, or the caller storing a half-edge index
other than the sentinel in a face that is in range and not in
`m_disabledFaces`. -/
inductive PoolOp where
  | addFace
  | disableFace (faceIndex : Nat)
  | writeHalfEdge (faceIndex : Nat) (he : Nat)
  deriving DecidableEq, Repr

/-- The mesh after one step of the face-pool protocol; `none` when the step is
not allowed or has no defined result. -/
def PoolOp.apply {T : Type} [Zero T] (indexMax : Nat) (m : Mesh T) : PoolOp → Option (Mesh T)
  | .addFace =>
    match m.addFace indexMax with
    | none => none
    | some (_, m1) => some m1
  | .disableFace faceIndex =>
    match m.m_faces[faceIndex]? with
    | none => none
    | some f =>
      if f.isDisabled indexMax = true then none
      else
        match m.disableFace indexMax faceIndex with
        | none => none
        | some (_, m1) => some m1
  | .writeHalfEdge faceIndex he =>
    match m.m_faces[faceIndex]? with
    | none => none
    | some f =>
      if he ≠ indexMax ∧ faceIndex ∉ m.m_disabledFaces then
        some { m with m_faces := m.m_faces.set faceIndex { f with m_he := he } }
      else none

/-- The mesh after a sequence of steps of the face-pool protocol. -/
def runPoolOps {T : Type} [Zero T] (indexMax : Nat) (m : Mesh T) : List PoolOp → Option (Mesh T)
  | [] => some m
  | op :: ops =>
    match op.apply indexMax m with
    | none => none
    | some m1 => runPoolOps indexMax m1 ops

/-- The number of faces whose `getVertexIndicesOfFace` triple contains the
vertex `v`. -/
def Mesh.facesWithVertex {T : Type} (m : Mesh T) (v : Nat) : Nat :=
  (m.m_faces.filter (fun face =>
    match m.getVertexIndicesOfFace face with
    | none => false
    | some (x, y, z) => decide (v = x ∨ v = y ∨ v = z))).length

/-- The half-edge records written by `Mesh(a, b, c, d)`. -/
def tetrahedronHalfEdges (a b c d : Nat) : List HalfEdge :=
  [⟨b, 6, 0, 1⟩, ⟨c, 9, 0, 2⟩, ⟨a, 3, 0, 0⟩, ⟨c, 2, 1, 4⟩, ⟨d, 11, 1, 5⟩, ⟨a, 7, 1, 3⟩,
   ⟨a, 0, 2, 7⟩, ⟨d, 5, 2, 8⟩, ⟨b, 10, 2, 6⟩, ⟨b, 1, 3, 10⟩, ⟨d, 8, 3, 11⟩, ⟨c, 4, 3, 9⟩]

/-- What the four mutating operations keep true from `Mesh(a, b, c, d)` on:
the first twelve half-edge records are those of the constructor, every later
record is all zero, and a face either holds the sentinel or is one of the
first four faces with the half-edge index the constructor gave it. -/
def TetrahedronInv {T : Type} (indexMax a b c d : Nat) (m : Mesh T) : Prop :=
  (∃ rest : List HalfEdge, m.m_halfEdges = tetrahedronHalfEdges a b c d ++ rest ∧
      ∀ h ∈ rest, h = ⟨0, 0, 0, 0⟩) ∧
  ∀ (f : Nat) (face : Face T), m.m_faces[f]? = some face →
    face.m_he = indexMax ∨ (f < 4 ∧ face.m_he = 3 * f)

/-- The invariant of the free-index pool of faces: every pooled index is the
index of a stored face that is disabled, and no index is pooled twice. -/
def FacePoolInv {T : Type} (indexMax : Nat) (m : Mesh T) : Prop :=
  (∀ i ∈ m.m_disabledFaces, ∃ face : Face T, m.m_faces[i]? = some face ∧
      face.isDisabled indexMax = true) ∧
  m.m_disabledFaces.Nodup

/-- What `addFace` asserts about the index it pops, stated for every pooled
index: it is the index of a stored face that is disabled and holds no point
list. -/
def FacePoolReady {T : Type} (indexMax : Nat) (m : Mesh T) : Prop :=
  ∀ i ∈ m.m_disabledFaces, ∃ face : Face T, m.m_faces[i]? = some face ∧
    (face.m_he = indexMax ∧ face.m_pointsOnPositiveSide = none)

/-- A call on the index-vector pool: `reclaimToIndexVectorPool(v)` with a
present buffer `v`, or `getIndexVectorFromPool()`. -/
inductive VectorPoolOp where
  | reclaim (v : IndexVector)
  | get
  deriving DecidableEq, Repr

/-- The mesh after one call on the index-vector pool; `none` when the call has
no defined result. -/
def VectorPoolOp.apply {T : Type} (sizeBits : Nat) (m : Mesh T) : VectorPoolOp → Option (Mesh T)
  | .reclaim v => m.reclaimToIndexVectorPool sizeBits (some v)
  | .get =>
    match m.getIndexVectorFromPool with
    | none => none
    | some (_, m1) => some m1

/-- The mesh after a sequence of calls on the index-vector pool. -/
def runVectorPoolOps {T : Type} (sizeBits : Nat) (m : Mesh T) :
    List VectorPoolOp → Option (Mesh T)
  | [] => some m
  | op :: ops =>
    match op.apply sizeBits m with
    | none => none
    | some m1 => runVectorPoolOps sizeBits m1 ops

/-- The result of `getVertexIndicesOfHalfEdge` on every stored half-edge, in
the order of `m_halfEdges`. -/
def Mesh.halfEdgeVertexPairs {T : Type} (m : Mesh T) : List (Option (Nat × Nat)) :=
  m.m_halfEdges.map m.getVertexIndicesOfHalfEdge

/-- A mesh with two faces whose face `1` is disabled, holds no point list and
has every other field set, and whose face pool is `[1]`. -/
def reissueExample : Mesh ℚ :=
  { m_faces := [{ Face.new 255 with m_he := 0 },
      { m_he := 255, m_P := some ⟨⟨0, 1, 0⟩, 0, 1⟩, m_mostDistantPointDist := 7,
        m_mostDistantPoint := 4, m_visibilityCheckedOnIteration := 9,
        m_isVisibleFaceOnCurrentIteration := 1, m_inFaceStack := 1,
        m_horizonEdgesOnCurrentIteration := 5, m_pointsOnPositiveSide := none }]
    m_halfEdges := tetrahedronHalfEdges 0 1 2 3
    m_disabledFaces := [1]
    m_disabledHalfEdges := [4]
    m_indexVectorPool := [] }

/-! ## Basic facts about the operations -/

section Basic

variable {T : Type} [Zero T]

theorem addFace_append (indexMax : Nat) (m : Mesh T) (h : m.m_disabledFaces = []) :
    m.addFace indexMax =
      some (m.m_faces.length % (indexMax + 1),
        { m with m_faces := m.m_faces ++ [Face.new indexMax] }) := by
  simp [Mesh.addFace, h]

theorem addFace_reuse (indexMax : Nat) (m : Mesh T) (l : List Nat) (i : Nat) (f : Face T)
    (hp : m.m_disabledFaces = l ++ [i]) (hf : m.m_faces[i]? = some f)
    (hd : f.m_he = indexMax) (hn : f.m_pointsOnPositiveSide = none) :
    m.addFace indexMax =
      some (i, { m with m_faces := m.m_faces.set i { f with m_mostDistantPointDist := 0 }
                        m_disabledFaces := l }) := by
  simp [Mesh.addFace, hp, hf, Face.isDisabled, hd, hn]

theorem addFace_cases (indexMax : Nat) (m m1 : Mesh T) (i : Nat)
    (h : m.addFace indexMax = some (i, m1)) :
    (m.m_disabledFaces = [] ∧ i = m.m_faces.length % (indexMax + 1) ∧
        m1 = { m with m_faces := m.m_faces ++ [Face.new indexMax] }) ∨
    (∃ l f, m.m_disabledFaces = l ++ [i] ∧ m.m_faces[i]? = some f ∧ f.m_he = indexMax ∧
        f.m_pointsOnPositiveSide = none ∧
        m1 = { m with m_faces := m.m_faces.set i { f with m_mostDistantPointDist := 0 }
                      m_disabledFaces := l }) := by
  rcases List.eq_nil_or_concat m.m_disabledFaces with hnil | ⟨l, j, hl⟩
  · left
    rw [addFace_append indexMax m hnil] at h
    simp only [Option.some.injEq, Prod.mk.injEq] at h
    exact ⟨hnil, h.1.symm, h.2.symm⟩
  · right
    rw [List.concat_eq_append] at hl
    cases hf : m.m_faces[j]? with
    | none => simp [Mesh.addFace, hl, hf] at h
    | some f =>
      by_cases hc : f.m_he = indexMax ∧ f.m_pointsOnPositiveSide = none
      · rw [addFace_reuse indexMax m l j f hl hf hc.1 hc.2] at h
        simp only [Option.some.injEq, Prod.mk.injEq] at h
        obtain ⟨hi, hm⟩ := h
        subst hi
        exact ⟨l, f, hl, hf, hc.1, hc.2, hm.symm⟩
      · simp [Mesh.addFace, hl, hf, Face.isDisabled, hc] at h

omit [Zero T] in
theorem addHalfEdge_append (indexMax : Nat) (m : Mesh T) (h : m.m_disabledHalfEdges = []) :
    m.addHalfEdge indexMax =
      some (m.m_halfEdges.length % (indexMax + 1),
        { m with m_halfEdges := m.m_halfEdges ++ [⟨0, 0, 0, 0⟩] }) := by
  simp [Mesh.addHalfEdge, h]

omit [Zero T] in
theorem addHalfEdge_cases (indexMax : Nat) (m m1 : Mesh T) (i : Nat)
    (h : m.addHalfEdge indexMax = some (i, m1)) :
    (m.m_disabledHalfEdges = [] ∧ i = m.m_halfEdges.length % (indexMax + 1) ∧
        m1 = { m with m_halfEdges := m.m_halfEdges ++ [⟨0, 0, 0, 0⟩] }) ∨
    (∃ l, m.m_disabledHalfEdges = l ++ [i] ∧ m1 = { m with m_disabledHalfEdges := l }) := by
  rcases List.eq_nil_or_concat m.m_disabledHalfEdges with hnil | ⟨l, j, hl⟩
  · left
    rw [addHalfEdge_append indexMax m hnil] at h
    simp only [Option.some.injEq, Prod.mk.injEq] at h
    exact ⟨hnil, h.1.symm, h.2.symm⟩
  · right
    rw [List.concat_eq_append] at hl
    simp [Mesh.addHalfEdge, hl] at h
    obtain ⟨hi, hm⟩ := h
    subst hi
    exact ⟨l, hl, hm.symm⟩

omit [Zero T] in
theorem disableFace_some (indexMax : Nat) (m : Mesh T) (faceIndex : Nat) (f : Face T)
    (hf : m.m_faces[faceIndex]? = some f) :
    m.disableFace indexMax faceIndex =
      some (f.m_pointsOnPositiveSide,
        { m with m_faces := m.m_faces.set faceIndex
                   { f with m_he := indexMax, m_pointsOnPositiveSide := none }
                 m_disabledFaces := m.m_disabledFaces ++ [faceIndex] }) := by
  simp [Mesh.disableFace, hf, Face.disable]

omit [Zero T] in
theorem disableFace_cases (indexMax : Nat) (m m1 : Mesh T) (faceIndex : Nat)
    (r : Option IndexVector) (h : m.disableFace indexMax faceIndex = some (r, m1)) :
    ∃ f, m.m_faces[faceIndex]? = some f ∧ r = f.m_pointsOnPositiveSide ∧
      m1 = { m with m_faces := m.m_faces.set faceIndex
                      { f with m_he := indexMax, m_pointsOnPositiveSide := none }
                    m_disabledFaces := m.m_disabledFaces ++ [faceIndex] } := by
  cases hf : m.m_faces[faceIndex]? with
  | none => simp [Mesh.disableFace, hf] at h
  | some f =>
    rw [disableFace_some indexMax m faceIndex f hf] at h
    simp only [Option.some.injEq, Prod.mk.injEq] at h
    exact ⟨f, rfl, h.1.symm, h.2.symm⟩

end Basic

/-! ## Invariant of the operations from the initial tetrahedron -/

theorem getElem?_set_kept {α : Type} (P : α → Prop) (l : List α) (i : Nat) (x old : α)
    (hold : l[i]? = some old) (hx : P old → P x) (g : Nat)
    (hg : ∃ y, l[g]? = some y ∧ P y) : ∃ y, (l.set i x)[g]? = some y ∧ P y := by
  obtain ⟨y, hy, hP⟩ := hg
  have hlt : i < l.length := (List.getElem?_eq_some.mp hold).1
  by_cases hig : i = g
  · subst hig
    rw [hold] at hy
    refine ⟨x, ?_, hx (Option.some.inj hy ▸ hP)⟩
    rw [List.getElem?_set]
    simp [hlt]
  · exact ⟨y, by rw [List.getElem?_set_ne hig]; exact hy, hP⟩

theorem forall_getElem?_set {α : Type} (P : Nat → α → Prop) (l : List α) (i : Nat) (x : α)
    (hl : ∀ j y, l[j]? = some y → P j y) (hx : P i x) :
    ∀ j y, (l.set i x)[j]? = some y → P j y := by
  intro j y hj
  rw [List.getElem?_set] at hj
  by_cases hij : i = j
  · subst hij
    by_cases hlt : i < l.length
    · simp only [if_true, hlt, Option.some.injEq] at hj
      exact hj ▸ hx
    · simp [hlt] at hj
  · rw [if_neg hij] at hj
    exact hl j y hj

theorem forall_getElem?_concat {α : Type} (P : Nat → α → Prop) (l : List α) (x : α)
    (hl : ∀ j y, l[j]? = some y → P j y) (hx : P l.length x) :
    ∀ j y, (l ++ [x])[j]? = some y → P j y := by
  intro j y hj
  rcases Nat.lt_trichotomy j l.length with hlt | heq | hgt
  · rw [List.getElem?_append_left hlt] at hj
    exact hl j y hj
  · subst heq
    rw [List.getElem?_concat_length] at hj
    exact Option.some.inj hj ▸ hx
  · rw [List.getElem?_eq_none (by simp; omega)] at hj
    exact absurd hj (by simp)

section Invariant

variable {T : Type} [Zero T]

theorem tetrahedronInv_init (indexMax a b c d : Nat) :
    TetrahedronInv indexMax a b c d (Mesh.tetrahedron indexMax a b c d : Mesh T) := by
  refine ⟨⟨[], by simp [Mesh.tetrahedron, tetrahedronHalfEdges], by simp⟩, ?_⟩
  intro f face hf
  right
  have hlt : f < 4 := by
    by_contra hge
    rw [List.getElem?_eq_none (by simp [Mesh.tetrahedron]; omega)] at hf
    exact absurd hf (by simp)
  refine ⟨hlt, ?_⟩
  interval_cases f <;> simp [Mesh.tetrahedron] at hf <;> rw [← hf]

theorem tetrahedronInv_step (indexMax a b c d : Nat) (op : MeshOp) (m m1 : Mesh T)
    (hinv : TetrahedronInv indexMax a b c d m) (h : op.apply indexMax m = some m1) :
    TetrahedronInv indexMax a b c d m1 := by
  obtain ⟨⟨rest, hrest, hzero⟩, hfaces⟩ := hinv
  cases op with
  | addFace =>
    cases hr : m.addFace indexMax with
    | none => simp [MeshOp.apply, hr] at h
    | some r =>
      obtain ⟨i, m2⟩ := r
      simp only [MeshOp.apply, hr, Option.some.injEq] at h
      subst h
      rcases addFace_cases indexMax m m2 i hr with ⟨_, _, hm⟩ | ⟨l, f, _, hf, hd, _, hm⟩
      · subst hm
        refine ⟨⟨rest, hrest, hzero⟩, ?_⟩
        exact forall_getElem?_concat _ _ _ hfaces (Or.inl rfl)
      · subst hm
        refine ⟨⟨rest, hrest, hzero⟩, ?_⟩
        exact forall_getElem?_set _ _ _ _ hfaces (Or.inl hd)
  | addHalfEdge =>
    cases hr : m.addHalfEdge indexMax with
    | none => simp [MeshOp.apply, hr] at h
    | some r =>
      obtain ⟨i, m2⟩ := r
      simp only [MeshOp.apply, hr, Option.some.injEq] at h
      subst h
      rcases addHalfEdge_cases indexMax m m2 i hr with ⟨_, _, hm⟩ | ⟨l, _, hm⟩
      · subst hm
        refine ⟨⟨rest ++ [⟨0, 0, 0, 0⟩], by simp [hrest], ?_⟩, hfaces⟩
        intro x hx
        rcases List.mem_append.mp hx with hx | hx
        · exact hzero x hx
        · simpa using hx
      · subst hm
        exact ⟨⟨rest, hrest, hzero⟩, hfaces⟩
  | disableFace faceIndex =>
    cases hr : m.disableFace indexMax faceIndex with
    | none => simp [MeshOp.apply, hr] at h
    | some r =>
      obtain ⟨pts, m2⟩ := r
      simp only [MeshOp.apply, hr, Option.some.injEq] at h
      subst h
      obtain ⟨f, hf, _, hm⟩ := disableFace_cases indexMax m m2 faceIndex pts hr
      subst hm
      refine ⟨⟨rest, hrest, hzero⟩, ?_⟩
      exact forall_getElem?_set _ _ _ _ hfaces (Or.inl rfl)
  | disableHalfEdge heIndex =>
    simp only [MeshOp.apply, Option.some.injEq] at h
    subst h
    exact ⟨⟨rest, hrest, hzero⟩, hfaces⟩

theorem tetrahedronInv_runOps (indexMax a b c d : Nat) (ops : List MeshOp) :
    ∀ (m m1 : Mesh T), TetrahedronInv indexMax a b c d m → runOps indexMax m ops = some m1 →
      TetrahedronInv indexMax a b c d m1 := by
  induction ops with
  | nil =>
    intro m m1 hinv h
    simp only [runOps, Option.some.injEq] at h
    exact h ▸ hinv
  | cons op ops ih =>
    intro m m1 hinv h
    cases hs : op.apply indexMax m with
    | none => simp [runOps, hs] at h
    | some m2 =>
      simp only [runOps, hs] at h
      exact ih m2 m1 (tetrahedronInv_step indexMax a b c d op m m2 hinv hs) h

end Invariant

/-! ## The operations are defined on reachable states -/

section Defined

variable {T : Type} [Zero T]

theorem facePoolReady_step (indexMax : Nat) (op : MeshOp) (m : Mesh T)
    (hready : FacePoolReady indexMax m)
    (hrange : ∀ f, op = MeshOp.disableFace f → f < m.m_faces.length) :
    ∃ m1 : Mesh T, op.apply indexMax m = some m1 ∧ FacePoolReady indexMax m1 ∧
      m.m_faces.length ≤ m1.m_faces.length := by
  cases op with
  | addFace =>
    rcases List.eq_nil_or_concat m.m_disabledFaces with hnil | ⟨l, i, hl⟩
    · refine ⟨{ m with m_faces := m.m_faces ++ [Face.new indexMax] },
        by simp only [MeshOp.apply, addFace_append indexMax m hnil], ?_, by simp⟩
      intro j hj
      simp [hnil] at hj
    · rw [List.concat_eq_append] at hl
      obtain ⟨face, hface, hhe, hpts⟩ := hready i (by simp [hl])
      refine ⟨{ m with m_faces := m.m_faces.set i { face with m_mostDistantPointDist := 0 }
                       m_disabledFaces := l },
        by simp only [MeshOp.apply, addFace_reuse indexMax m l i face hl hface hhe hpts],
        ?_, by simp⟩
      intro j hj
      exact getElem?_set_kept _ _ _ { face with m_mostDistantPointDist := 0 } _ hface
        (fun h => ⟨h.1, h.2⟩) j (hready j (by simp only [hl]; exact List.mem_append_left _ hj))
  | addHalfEdge =>
    rcases List.eq_nil_or_concat m.m_disabledHalfEdges with hnil | ⟨l, i, hl⟩
    · exact ⟨{ m with m_halfEdges := m.m_halfEdges ++ [⟨0, 0, 0, 0⟩] },
        by simp only [MeshOp.apply, addHalfEdge_append indexMax m hnil], hready, le_refl _⟩
    · rw [List.concat_eq_append] at hl
      exact ⟨{ m with m_disabledHalfEdges := l }, by simp [MeshOp.apply, Mesh.addHalfEdge, hl],
        hready, le_refl _⟩
  | disableFace f =>
    have hlt : f < m.m_faces.length := hrange f rfl
    have hf : m.m_faces[f]? = some (m.m_faces[f]) := List.getElem?_eq_getElem hlt
    refine ⟨{ m with m_faces := m.m_faces.set f
                       { m.m_faces[f] with m_he := indexMax, m_pointsOnPositiveSide := none }
                     m_disabledFaces := m.m_disabledFaces ++ [f] },
      by simp only [MeshOp.apply, disableFace_some indexMax m f _ hf], ?_, by simp⟩
    intro j hj
    rcases List.mem_append.mp hj with hj | hj
    · exact getElem?_set_kept _ _ _
        { m.m_faces[f] with m_he := indexMax, m_pointsOnPositiveSide := none } _ hf
        (fun _ => ⟨rfl, rfl⟩) j (hready j hj)
    · rw [List.mem_singleton.mp hj]
      refine ⟨{ m.m_faces[f] with m_he := indexMax, m_pointsOnPositiveSide := none },
        ?_, rfl, rfl⟩
      simp only [List.getElem?_set, if_true, hlt]
  | disableHalfEdge h =>
    exact ⟨_, rfl, hready, le_refl _⟩

theorem runOps_defined (indexMax : Nat) (ops : List MeshOp) :
    ∀ m : Mesh T, FacePoolReady indexMax m →
      (∀ f, MeshOp.disableFace f ∈ ops → f < m.m_faces.length) →
      ∃ m1 : Mesh T, runOps indexMax m ops = some m1 := by
  induction ops with
  | nil => exact fun m _ _ => ⟨m, rfl⟩
  | cons op ops ih =>
    intro m hready hrange
    obtain ⟨m1, hstep, hready1, hlen⟩ := facePoolReady_step indexMax op m hready
      (fun f hf => hrange f (hf ▸ List.mem_cons_self _ _))
    obtain ⟨m2, hrun⟩ := ih m1 hready1
      (fun f hf => Nat.lt_of_lt_of_le (hrange f (List.mem_cons_of_mem _ hf)) hlen)
    exact ⟨m2, by simp only [runOps, hstep, hrun]⟩

theorem runOps_tetrahedron_defined (indexMax a b c d : Nat) (ops : List MeshOp)
    (hrange : ∀ f, MeshOp.disableFace f ∈ ops → f < 4) :
    ∃ m1 : Mesh T, runOps indexMax (Mesh.tetrahedron indexMax a b c d) ops = some m1 :=
  runOps_defined indexMax ops _ (by intro i hi; simp [Mesh.tetrahedron] at hi) hrange

end Defined

/-! ## The initial tetrahedron -/

theorem tetrahedron_opp_pairing {T : Type} [Zero T] (indexMax a b c d e : Nat) (he : e < 12) :
    ∃ h o : HalfEdge,
      (Mesh.tetrahedron indexMax a b c d : Mesh T).m_halfEdges[e]? = some h ∧
      h.m_opp < 12 ∧
      (Mesh.tetrahedron indexMax a b c d : Mesh T).m_halfEdges[h.m_opp]? = some o ∧
      o.m_opp = e ∧ h.m_opp ≠ e ∧ o.m_face ≠ h.m_face := by
  interval_cases e <;> simp [Mesh.tetrahedron]

/-- C1: in `Mesh(a, b, c, d)` the opposite-edge pairing is a fixed-point-free
involution on the half-edge indices `0..11` that joins different faces. -/
theorem tetrahedron_opp_involution {T : Type} [Zero T] (indexMax a b c d e : Nat)
    (he : e < 12) :
    ∃ h o : HalfEdge,
      (Mesh.tetrahedron indexMax a b c d : Mesh T).m_halfEdges[e]? = some h ∧
      h.m_opp < 12 ∧
      (Mesh.tetrahedron indexMax a b c d : Mesh T).m_halfEdges[h.m_opp]? = some o ∧
      o.m_opp = e ∧ h.m_opp ≠ e ∧ o.m_face ≠ h.m_face :=
  tetrahedron_opp_pairing indexMax a b c d e he

/-- C1, at the tetrahedron `Mesh(0, 1, 2, 3)` and its half-edge `4`. -/
theorem tetrahedron_opp_involution_witness :
    (4 < 12) ∧ ∃ h o : HalfEdge,
      (Mesh.tetrahedron 255 0 1 2 3 : Mesh ℚ).m_halfEdges[4]? = some h ∧
      h.m_opp < 12 ∧
      (Mesh.tetrahedron 255 0 1 2 3 : Mesh ℚ).m_halfEdges[h.m_opp]? = some o ∧
      o.m_opp = 4 ∧ h.m_opp ≠ 4 ∧ o.m_face ≠ h.m_face :=
  ⟨by decide, tetrahedron_opp_involution 255 0 1 2 3 4 (by decide)⟩

/-! ## Reachable states -/

/-- C2: in every mesh reached from `Mesh(a, b, c, d)` by `addFace`,
`addHalfEdge`, `disableFace` and `disableHalfEdge` calls, a face `f` that is
not disabled is a triangle: three `m_next` steps from its `m_he` lead back to
`m_he`, and the three half-edges on the way have `m_face == f`. -/
theorem reachable_faces_are_triangles {T : Type} [Zero T] (indexMax a b c d : Nat)
    (ops : List MeshOp) (m : Mesh T)
    (hrun : runOps indexMax (Mesh.tetrahedron indexMax a b c d) ops = some m)
    (f : Nat) (face : Face T) (hf : m.m_faces[f]? = some face)
    (hen : face.isDisabled indexMax = false) :
    ∃ h0 h1 h2 : HalfEdge,
      m.m_halfEdges[face.m_he]? = some h0 ∧ m.m_halfEdges[h0.m_next]? = some h1 ∧
      m.m_halfEdges[h1.m_next]? = some h2 ∧ h2.m_next = face.m_he ∧
      h0.m_face = f ∧ h1.m_face = f ∧ h2.m_face = f := by
  obtain ⟨⟨rest, hrest, _⟩, hfaces⟩ :=
    tetrahedronInv_runOps indexMax a b c d ops _ m (tetrahedronInv_init indexMax a b c d) hrun
  rcases hfaces f face hf with hd | ⟨hlt, hhe⟩
  · simp [Face.isDisabled, hd] at hen
  · rw [hhe, hrest]
    interval_cases f <;> simp [tetrahedronHalfEdges]

/-- C2, after the calls `disableFace(1)`, `addHalfEdge()`, `addFace()`,
`addFace()`, `disableHalfEdge(3)`, `addHalfEdge()` on `Mesh(0, 1, 2, 3)`, at
face `2`. -/
theorem reachable_faces_are_triangles_witness :
    ∃ (m : Mesh ℚ) (face : Face ℚ),
      runOps 255 (Mesh.tetrahedron 255 0 1 2 3)
        [.disableFace 1, .addHalfEdge, .addFace, .addFace, .disableHalfEdge 3, .addHalfEdge]
        = some m ∧
      m.m_faces[2]? = some face ∧ face.isDisabled 255 = false ∧
      ∃ h0 h1 h2 : HalfEdge,
        m.m_halfEdges[face.m_he]? = some h0 ∧ m.m_halfEdges[h0.m_next]? = some h1 ∧
        m.m_halfEdges[h1.m_next]? = some h2 ∧ h2.m_next = face.m_he ∧
        h0.m_face = 2 ∧ h1.m_face = 2 ∧ h2.m_face = 2 :=
  ⟨_, _, rfl, rfl, rfl,
    reachable_faces_are_triangles 255 0 1 2 3
      [.disableFace 1, .addHalfEdge, .addFace, .addFace, .disableHalfEdge 3, .addHalfEdge]
      _ rfl 2 _ rfl rfl⟩

/-- C3 fails as stated: after the single call `addHalfEdge()` on
`Mesh(0, 1, 2, 3)` the half-edge `12` is in range and not in
`m_disabledHalfEdges`, yet `m_halfEdges[m_halfEdges[12].m_opp].m_opp` is `6`. -/
theorem reachable_opp_involution_counterexample :
    ∃ m : Mesh ℚ,
      runOps 255 (Mesh.tetrahedron 255 0 1 2 3) [.addHalfEdge] = some m ∧
      12 < m.m_halfEdges.length ∧ 12 ∉ m.m_disabledHalfEdges ∧
      m.oppOfOpp 12 = some 6 ∧ m.oppOfOpp 12 ≠ some 12 :=
  ⟨_, rfl, by decide, by decide, rfl, by decide⟩

/-- C3, amended: in every mesh reached from `Mesh(a, b, c, d)` by `addFace`,
`addHalfEdge`, `disableFace` and `disableHalfEdge` calls, each of the twelve
half-edges `e` of the constructor has
`m_halfEdges[m_halfEdges[e].m_opp].m_opp == e`, whereas a half-edge that
`addHalfEdge` appended (index `12` or more) has all fields zero and the same
expression gives `6`. -/
theorem reachable_opp_involution {T : Type} [Zero T] (indexMax a b c d : Nat)
    (ops : List MeshOp) (m : Mesh T)
    (hrun : runOps indexMax (Mesh.tetrahedron indexMax a b c d) ops = some m) :
    (∀ e, e < 12 → m.oppOfOpp e = some e) ∧
    (∀ e, 12 ≤ e → e < m.m_halfEdges.length →
      m.m_halfEdges[e]? = some ⟨0, 0, 0, 0⟩ ∧ m.oppOfOpp e = some 6) := by
  obtain ⟨⟨rest, hrest, hzero⟩, _⟩ :=
    tetrahedronInv_runOps indexMax a b c d ops _ m (tetrahedronInv_init indexMax a b c d) hrun
  constructor
  · intro e he
    unfold Mesh.oppOfOpp
    rw [hrest]
    interval_cases e <;> simp [tetrahedronHalfEdges]
  · intro e he hlt
    have hlen : (tetrahedronHalfEdges a b c d).length = 12 := rfl
    have hget : m.m_halfEdges[e]? = some ⟨0, 0, 0, 0⟩ := by
      rw [hrest, List.getElem?_append_right (by omega)]
      rw [hrest, List.length_append] at hlt
      have hlt2 : e - (tetrahedronHalfEdges a b c d).length < rest.length := by omega
      rw [List.getElem?_eq_getElem hlt2]
      exact congrArg some (hzero _ (List.getElem_mem hlt2))
    refine ⟨hget, ?_⟩
    unfold Mesh.oppOfOpp
    rw [hget]
    simp [hrest, tetrahedronHalfEdges]

/-- C3 amended, after the calls `addHalfEdge()`, `disableHalfEdge(4)`,
`disableFace(0)`, `addFace()` on `Mesh(0, 1, 2, 3)`. -/
theorem reachable_opp_involution_witness :
    ∃ m : Mesh ℚ,
      runOps 255 (Mesh.tetrahedron 255 0 1 2 3)
        [.addHalfEdge, .disableHalfEdge 4, .disableFace 0, .addFace] = some m ∧
      (∀ e, e < 12 → m.oppOfOpp e = some e) ∧
      (∀ e, 12 ≤ e → e < m.m_halfEdges.length →
        m.m_halfEdges[e]? = some ⟨0, 0, 0, 0⟩ ∧ m.oppOfOpp e = some 6) :=
  ⟨_, rfl,
    reachable_opp_involution 255 0 1 2 3
      [.addHalfEdge, .disableHalfEdge 4, .disableFace 0, .addFace] _ rfl⟩

/-! ## Faces and half-edges of the initial tetrahedron -/

/-- C4: `Mesh(a, b, c, d)` has four faces and twelve half-edges, no face is
disabled, both free-index pools are empty, and `getVertexIndicesOfFace` gives
`(b, c, a)`, `(c, d, a)`, `(a, d, b)`, `(b, d, c)` on faces `0, 1, 2, 3`; every
returned index is one of `a, b, c, d`, and for pairwise distinct `a, b, c, d`
each of them occurs in exactly three faces.  `indexMax` is at least `11`: the
index type holds the twelve half-edge indices the constructor stores. -/
theorem tetrahedron_faces {T : Type} [Zero T] (indexMax a b c d : Nat)
    (hmax : 11 ≤ indexMax) :
    ∃ f0 f1 f2 f3 : Face T,
      (Mesh.tetrahedron indexMax a b c d : Mesh T).m_faces = [f0, f1, f2, f3] ∧
      (Mesh.tetrahedron indexMax a b c d : Mesh T).m_halfEdges.length = 12 ∧
      f0.isDisabled indexMax = false ∧ f1.isDisabled indexMax = false ∧
      f2.isDisabled indexMax = false ∧ f3.isDisabled indexMax = false ∧
      (Mesh.tetrahedron indexMax a b c d : Mesh T).m_disabledFaces = [] ∧
      (Mesh.tetrahedron indexMax a b c d : Mesh T).m_disabledHalfEdges = [] ∧
      (Mesh.tetrahedron indexMax a b c d : Mesh T).getVertexIndicesOfFace f0 = some (b, c, a) ∧
      (Mesh.tetrahedron indexMax a b c d : Mesh T).getVertexIndicesOfFace f1 = some (c, d, a) ∧
      (Mesh.tetrahedron indexMax a b c d : Mesh T).getVertexIndicesOfFace f2 = some (a, d, b) ∧
      (Mesh.tetrahedron indexMax a b c d : Mesh T).getVertexIndicesOfFace f3 = some (b, d, c) ∧
      (∀ face ∈ (Mesh.tetrahedron indexMax a b c d : Mesh T).m_faces, ∃ x y z,
        (Mesh.tetrahedron indexMax a b c d : Mesh T).getVertexIndicesOfFace face
          = some (x, y, z) ∧
        x ∈ [a, b, c, d] ∧ y ∈ [a, b, c, d] ∧ z ∈ [a, b, c, d]) ∧
      ([a, b, c, d].Nodup → ∀ v ∈ [a, b, c, d],
        (Mesh.tetrahedron indexMax a b c d : Mesh T).facesWithVertex v = 3) := by
  have h0 : (0 : Nat) ≠ indexMax := by omega
  have h3 : (3 : Nat) ≠ indexMax := by omega
  have h6 : (6 : Nat) ≠ indexMax := by omega
  have h9 : (9 : Nat) ≠ indexMax := by omega
  refine ⟨_, _, _, _, rfl, rfl, ?_, ?_, ?_, ?_, rfl, rfl, rfl, rfl, rfl, rfl, ?_, ?_⟩
  · simpa [Face.isDisabled] using h0
  · simpa [Face.isDisabled] using h3
  · simpa [Face.isDisabled] using h6
  · simpa [Face.isDisabled] using h9
  · intro face hface
    simp only [Mesh.tetrahedron, List.mem_cons, List.mem_singleton, List.not_mem_nil,
      or_false] at hface
    rcases hface with h | h | h | h <;> subst h
    · exact ⟨b, c, a, rfl, by simp, by simp, by simp⟩
    · exact ⟨c, d, a, rfl, by simp, by simp, by simp⟩
    · exact ⟨a, d, b, rfl, by simp, by simp, by simp⟩
    · exact ⟨b, d, c, rfl, by simp, by simp, by simp⟩
  · intro hnd v hv
    simp only [List.nodup_cons, List.mem_cons, List.mem_singleton, List.not_mem_nil,
      or_false, not_or, not_false_eq_true, List.nodup_nil, and_true] at hnd
    obtain ⟨⟨hab, hac, had⟩, ⟨hbc, hbd⟩, hcd⟩ := hnd
    simp only [List.mem_cons, List.mem_singleton, List.not_mem_nil, or_false] at hv
    rcases hv with h | h | h | h <;> subst h <;>
      simp [Mesh.facesWithVertex, Mesh.tetrahedron, Mesh.getVertexIndicesOfFace,
        List.filter_cons, hab, hac, had, hbc, hbd, hcd, Ne.symm hab, Ne.symm hac, Ne.symm had,
        Ne.symm hbc, Ne.symm hbd, Ne.symm hcd]

/-- C4, at `Mesh(0, 1, 2, 3)` with an 8-bit index type. -/
theorem tetrahedron_faces_witness :
    11 ≤ 255 ∧ [0, 1, 2, 3].Nodup ∧
    ∃ f0 f1 f2 f3 : Face ℚ,
      (Mesh.tetrahedron 255 0 1 2 3 : Mesh ℚ).m_faces = [f0, f1, f2, f3] ∧
      (Mesh.tetrahedron 255 0 1 2 3 : Mesh ℚ).m_halfEdges.length = 12 ∧
      f0.isDisabled 255 = false ∧ f1.isDisabled 255 = false ∧
      f2.isDisabled 255 = false ∧ f3.isDisabled 255 = false ∧
      (Mesh.tetrahedron 255 0 1 2 3 : Mesh ℚ).m_disabledFaces = [] ∧
      (Mesh.tetrahedron 255 0 1 2 3 : Mesh ℚ).m_disabledHalfEdges = [] ∧
      (Mesh.tetrahedron 255 0 1 2 3 : Mesh ℚ).getVertexIndicesOfFace f0 = some (1, 2, 0) ∧
      (Mesh.tetrahedron 255 0 1 2 3 : Mesh ℚ).getVertexIndicesOfFace f1 = some (2, 3, 0) ∧
      (Mesh.tetrahedron 255 0 1 2 3 : Mesh ℚ).getVertexIndicesOfFace f2 = some (0, 3, 1) ∧
      (Mesh.tetrahedron 255 0 1 2 3 : Mesh ℚ).getVertexIndicesOfFace f3 = some (1, 3, 2) ∧
      (∀ face ∈ (Mesh.tetrahedron 255 0 1 2 3 : Mesh ℚ).m_faces, ∃ x y z,
        (Mesh.tetrahedron 255 0 1 2 3 : Mesh ℚ).getVertexIndicesOfFace face = some (x, y, z) ∧
        x ∈ [0, 1, 2, 3] ∧ y ∈ [0, 1, 2, 3] ∧ z ∈ [0, 1, 2, 3]) ∧
      ([0, 1, 2, 3].Nodup → ∀ v ∈ [0, 1, 2, 3],
        (Mesh.tetrahedron 255 0 1 2 3 : Mesh ℚ).facesWithVertex v = 3) :=
  ⟨by decide, by decide, tetrahedron_faces 255 0 1 2 3 (by decide)⟩

/-- C5: when `e` and `o = m_halfEdges[e].m_opp` are in range and
`m_halfEdges[o].m_opp == e`, `getVertexIndicesOfHalfEdge` returns a pair
`(u, v)` on `m_halfEdges[e]` and the reversed pair `(v, u)` on `m_halfEdges[o]`;
this is the case for each of the twelve half-edges of `Mesh(a, b, c, d)`. -/
theorem getVertexIndicesOfHalfEdge_opp {T : Type} [Zero T] :
    (∀ (m : Mesh T) (e : Nat) (he ho : HalfEdge),
      m.m_halfEdges[e]? = some he → m.m_halfEdges[he.m_opp]? = some ho → ho.m_opp = e →
      ∃ u v, m.getVertexIndicesOfHalfEdge he = some (u, v) ∧
        m.getVertexIndicesOfHalfEdge ho = some (v, u)) ∧
    (∀ (indexMax a b c d e : Nat), e < 12 →
      ∃ (he ho : HalfEdge) (u v : Nat),
        (Mesh.tetrahedron indexMax a b c d : Mesh T).m_halfEdges[e]? = some he ∧
        (Mesh.tetrahedron indexMax a b c d : Mesh T).m_halfEdges[he.m_opp]? = some ho ∧
        (Mesh.tetrahedron indexMax a b c d : Mesh T).getVertexIndicesOfHalfEdge he
          = some (u, v) ∧
        (Mesh.tetrahedron indexMax a b c d : Mesh T).getVertexIndicesOfHalfEdge ho
          = some (v, u)) := by
  have general : ∀ (m : Mesh T) (e : Nat) (he ho : HalfEdge),
      m.m_halfEdges[e]? = some he → m.m_halfEdges[he.m_opp]? = some ho → ho.m_opp = e →
      ∃ u v, m.getVertexIndicesOfHalfEdge he = some (u, v) ∧
        m.getVertexIndicesOfHalfEdge ho = some (v, u) := by
    intro m e he ho h1 h2 h3
    refine ⟨ho.m_endVertex, he.m_endVertex, ?_, ?_⟩
    · simp [Mesh.getVertexIndicesOfHalfEdge, h2]
    · simp [Mesh.getVertexIndicesOfHalfEdge, h3, h1]
  refine ⟨general, ?_⟩
  intro indexMax a b c d e hlt
  obtain ⟨he, ho, h1, _, h2, h3, _, _⟩ := @tetrahedron_opp_pairing T _ indexMax a b c d e hlt
  obtain ⟨u, v, hu, hv⟩ := general _ e he ho h1 h2 h3
  exact ⟨he, ho, u, v, h1, h2, hu, hv⟩

/-- C5, at the half-edge `1` of `Mesh(0, 1, 2, 3)`, whose opposite is `9`. -/
theorem getVertexIndicesOfHalfEdge_opp_witness :
    (Mesh.tetrahedron 255 0 1 2 3 : Mesh ℚ).m_halfEdges[1]? = some ⟨2, 9, 0, 2⟩ ∧
    (Mesh.tetrahedron 255 0 1 2 3 : Mesh ℚ).m_halfEdges[9]? = some ⟨1, 1, 3, 10⟩ ∧
    ∃ u v, (Mesh.tetrahedron 255 0 1 2 3 : Mesh ℚ).getVertexIndicesOfHalfEdge ⟨2, 9, 0, 2⟩
        = some (u, v) ∧
      (Mesh.tetrahedron 255 0 1 2 3 : Mesh ℚ).getVertexIndicesOfHalfEdge ⟨1, 1, 3, 10⟩
        = some (v, u) :=
  ⟨rfl, rfl,
    getVertexIndicesOfHalfEdge_opp.1 (Mesh.tetrahedron 255 0 1 2 3) 1 ⟨2, 9, 0, 2⟩ ⟨1, 1, 3, 10⟩
      rfl rfl rfl⟩

/-! ## Reuse of face slots -/

section Reuse

variable {T : Type} [Zero T]

omit [Zero T] in
theorem disableFaces_spec (indexMax : Nat) (fs : List Nat) :
    ∀ m : Mesh T, (∀ f ∈ fs, f < m.m_faces.length) →
      ∃ m1, disableFaces indexMax m fs = some m1 ∧
        m1.m_faces.length = m.m_faces.length ∧
        m1.m_disabledFaces = m.m_disabledFaces ++ fs ∧
        (∀ g : Nat, (∃ face : Face T, m.m_faces[g]? = some face ∧
              (face.m_he = indexMax ∧ face.m_pointsOnPositiveSide = none)) →
            ∃ face : Face T, m1.m_faces[g]? = some face ∧
              (face.m_he = indexMax ∧ face.m_pointsOnPositiveSide = none)) ∧
        (∀ f ∈ fs, ∃ face : Face T, m1.m_faces[f]? = some face ∧
            (face.m_he = indexMax ∧ face.m_pointsOnPositiveSide = none)) := by
  induction fs with
  | nil =>
    intro m _
    exact ⟨m, rfl, rfl, by simp, fun g hg => hg, by simp⟩
  | cons f fs ih =>
    intro m hrange
    have hlt : f < m.m_faces.length := hrange f (List.mem_cons_self f fs)
    have hf : m.m_faces[f]? = some (m.m_faces[f]) := List.getElem?_eq_getElem hlt
    have hstep := disableFace_some indexMax m f _ hf
    obtain ⟨m1, hrun, hlen, hpool, hkeep, hall⟩ := ih
      { m with m_faces := m.m_faces.set f
                 { m.m_faces[f] with m_he := indexMax, m_pointsOnPositiveSide := none }
               m_disabledFaces := m.m_disabledFaces ++ [f] }
      (by intro g hg; simpa using hrange g (List.mem_cons_of_mem f hg))
    have hpres : ∀ g : Nat, (∃ face : Face T, m.m_faces[g]? = some face ∧
          (face.m_he = indexMax ∧ face.m_pointsOnPositiveSide = none)) →
        ∃ face : Face T, m1.m_faces[g]? = some face ∧
          (face.m_he = indexMax ∧ face.m_pointsOnPositiveSide = none) := by
      intro g hg
      apply hkeep
      exact getElem?_set_kept _ _ _
        { m.m_faces[f] with m_he := indexMax, m_pointsOnPositiveSide := none } _ hf
        (fun _ => ⟨rfl, rfl⟩) g hg
    refine ⟨m1, ?_, ?_, ?_, hpres, ?_⟩
    · simp only [disableFaces, hstep]
      exact hrun
    · simpa using hlen
    · simpa using hpool
    · intro g hg
      rcases List.mem_cons.mp hg with heq | hmem
      · rw [heq]
        apply hkeep
        refine ⟨{ m.m_faces[f] with m_he := indexMax, m_pointsOnPositiveSide := none },
          ?_, rfl, rfl⟩
        simp only [List.getElem?_set, if_true, hlt]
      · exact hall g hmem

theorem addFaces_spec (indexMax : Nat) (gs : List Nat) :
    ∀ (m : Mesh T) (base : List Nat), m.m_disabledFaces = base ++ gs.reverse →
      (∀ g ∈ gs, ∃ face : Face T, m.m_faces[g]? = some face ∧
          (face.m_he = indexMax ∧ face.m_pointsOnPositiveSide = none)) →
      ∃ m2, addFaces indexMax m gs.length = some (gs, m2) ∧
        m2.m_faces.length = m.m_faces.length ∧
        m2.m_disabledFaces = base ∧
        (∀ g : Nat, (∃ face : Face T, m.m_faces[g]? = some face ∧
              (face.m_pointsOnPositiveSide = none ∧ face.m_mostDistantPointDist = 0)) →
            ∃ face : Face T, m2.m_faces[g]? = some face ∧
              (face.m_pointsOnPositiveSide = none ∧ face.m_mostDistantPointDist = 0)) ∧
        (∀ g ∈ gs, ∃ face : Face T, m2.m_faces[g]? = some face ∧
            (face.m_pointsOnPositiveSide = none ∧ face.m_mostDistantPointDist = 0)) := by
  induction gs with
  | nil =>
    intro m base hpool _
    exact ⟨m, rfl, rfl, by simpa using hpool, fun g hg => hg, by simp⟩
  | cons g gs ih =>
    intro m base hpool hdis
    obtain ⟨face, hface, hhe, hpts⟩ := hdis g (List.mem_cons_self g gs)
    have hpool1 : m.m_disabledFaces = (base ++ gs.reverse) ++ [g] := by
      rw [hpool, List.reverse_cons, List.append_assoc]
    have hstep := addFace_reuse indexMax m _ g face hpool1 hface hhe hpts
    obtain ⟨m2, hrun, hlen, hbase, hkeep, hall⟩ := ih
      { m with m_faces := m.m_faces.set g { face with m_mostDistantPointDist := 0 }
               m_disabledFaces := base ++ gs.reverse }
      base rfl
      (by
        intro g1 hg1
        exact getElem?_set_kept _ _ _ { face with m_mostDistantPointDist := 0 } _ hface
          (fun h => ⟨h.1, h.2⟩) g1 (hdis g1 (List.mem_cons_of_mem g hg1)))
    have hpres : ∀ g1 : Nat, (∃ face : Face T, m.m_faces[g1]? = some face ∧
          (face.m_pointsOnPositiveSide = none ∧ face.m_mostDistantPointDist = 0)) →
        ∃ face : Face T, m2.m_faces[g1]? = some face ∧
          (face.m_pointsOnPositiveSide = none ∧ face.m_mostDistantPointDist = 0) := by
      intro g1 hg1
      apply hkeep
      exact getElem?_set_kept _ _ _ { face with m_mostDistantPointDist := 0 } _ hface
        (fun h => ⟨h.1, rfl⟩) g1 hg1
    refine ⟨m2, ?_, ?_, hbase, hpres, ?_⟩
    · simp only [List.length_cons, addFaces, hstep, hrun]
    · simpa using hlen
    · intro g1 hg1
      rcases List.mem_cons.mp hg1 with heq | hmem
      · subst heq
        apply hkeep
        have hlt : g1 < m.m_faces.length := (List.getElem?_eq_some.mp hface).1
        refine ⟨{ face with m_mostDistantPointDist := 0 }, ?_, hpts, rfl⟩
        simp only [List.getElem?_set, if_true, hlt]
      · exact hall g1 hmem

end Reuse

/-- C6: for pairwise distinct, in-range, enabled faces `f1, ..., fk`, the calls
`disableFace(f1)`, ..., `disableFace(fk)` followed by `k` calls of `addFace()`
return `fk, ..., f1` in this order; afterwards `m_faces` has its old length,
`m_disabledFaces` its old value, and every reissued face has no point list
and `m_mostDistantPointDist == 0`. -/
theorem disable_then_add_reuses_slots {T : Type} [Zero T] (indexMax : Nat) (m : Mesh T)
    (fs : List Nat) (_hnodup : fs.Nodup)
    (henabled : ∀ f ∈ fs, ∃ face : Face T, m.m_faces[f]? = some face ∧
      face.isDisabled indexMax = false) :
    ∃ m1 m2 : Mesh T,
      disableFaces indexMax m fs = some m1 ∧
      addFaces indexMax m1 fs.length = some (fs.reverse, m2) ∧
      m2.m_faces.length = m.m_faces.length ∧
      m2.m_disabledFaces = m.m_disabledFaces ∧
      ∀ f ∈ fs, ∃ face : Face T, m2.m_faces[f]? = some face ∧
        face.m_pointsOnPositiveSide = none ∧ face.m_mostDistantPointDist = 0 := by
  have hrange : ∀ f ∈ fs, f < m.m_faces.length := by
    intro f hf
    obtain ⟨face, hface, _⟩ := henabled f hf
    exact (List.getElem?_eq_some.mp hface).1
  obtain ⟨m1, hrun1, hlen1, hpool1, _, hall1⟩ := disableFaces_spec indexMax fs m hrange
  obtain ⟨m2, hrun2, hlen2, hpool2, _, hall2⟩ :=
    addFaces_spec indexMax fs.reverse m1 m.m_disabledFaces
      (by rw [hpool1, List.reverse_reverse])
      (fun g hg => hall1 g (List.mem_reverse.mp hg))
  refine ⟨m1, m2, hrun1, ?_, hlen2.trans hlen1, hpool2, ?_⟩
  · rw [← List.length_reverse fs]
    exact hrun2
  · intro f hf
    exact hall2 f (List.mem_reverse.mpr hf)

/-- C6, at the initial tetrahedron: disabling the faces `0, 1, 2, 3` and calling
`addFace()` four times returns `3, 2, 1, 0`, with four faces still stored. -/
theorem disable_then_add_reuses_slots_witness :
    [0, 1, 2, 3].Nodup ∧
    (∀ f ∈ [0, 1, 2, 3], ∃ face : Face ℚ, (Mesh.tetrahedron 255 0 1 2 3 : Mesh ℚ).m_faces[f]? = some face ∧
      face.isDisabled 255 = false) ∧
    ∃ m1 m2 : Mesh ℚ,
      disableFaces 255 (Mesh.tetrahedron 255 0 1 2 3) [0, 1, 2, 3] = some m1 ∧
      addFaces 255 m1 4 = some ([3, 2, 1, 0], m2) ∧
      m2.m_faces.length = 4 ∧
      m2.m_disabledFaces = [] ∧
      ∀ f ∈ [0, 1, 2, 3], ∃ face : Face ℚ, m2.m_faces[f]? = some face ∧
        face.m_pointsOnPositiveSide = none ∧ face.m_mostDistantPointDist = 0 :=
  ⟨by decide, by decide,
    disable_then_add_reuses_slots 255 (Mesh.tetrahedron 255 0 1 2 3) [0, 1, 2, 3]
      (by decide) (by decide)⟩

/-! ## The free-index pool of faces -/

section Pool

variable {T : Type} [Zero T]

theorem facePoolInv_step (indexMax : Nat) (op : PoolOp) (m m1 : Mesh T)
    (hinv : FacePoolInv indexMax m) (h : op.apply indexMax m = some m1) :
    FacePoolInv indexMax m1 := by
  obtain ⟨hdis, hnd⟩ := hinv
  cases op with
  | addFace =>
    cases hr : m.addFace indexMax with
    | none => simp [PoolOp.apply, hr] at h
    | some r =>
      obtain ⟨i, m2⟩ := r
      simp only [PoolOp.apply, hr, Option.some.injEq] at h
      subst h
      rcases addFace_cases indexMax m m2 i hr with ⟨hnil, _, hm⟩ | ⟨l, f, hl, hf, _, _, hm⟩
      · subst hm
        refine ⟨?_, ?_⟩
        · intro j hj
          simp [hnil] at hj
        · simp [hnil]
      · subst hm
        rw [hl] at hdis hnd
        refine ⟨?_, (List.nodup_append.mp hnd).1⟩
        intro j hj
        exact getElem?_set_kept (fun y : Face T => y.isDisabled indexMax = true) _ _
          { f with m_mostDistantPointDist := 0 } _ hf (fun hy => hy) j
          (hdis j (List.mem_append_left _ hj))
  | disableFace faceIndex =>
    cases hf : m.m_faces[faceIndex]? with
    | none => simp [PoolOp.apply, hf] at h
    | some f =>
      by_cases hen : f.isDisabled indexMax = true
      · simp [PoolOp.apply, hf, hen] at h
      · simp only [PoolOp.apply, hf] at h
        rw [if_neg hen, disableFace_some indexMax m faceIndex f hf] at h
        simp only [Option.some.injEq] at h
        subst h
        have hlt : faceIndex < m.m_faces.length := (List.getElem?_eq_some.mp hf).1
        have hnotin : faceIndex ∉ m.m_disabledFaces := by
          intro hmem
          obtain ⟨face, hface, hd⟩ := hdis faceIndex hmem
          rw [hf] at hface
          exact hen (Option.some.inj hface ▸ hd)
        refine ⟨?_, ?_⟩
        · intro j hj
          rcases List.mem_append.mp hj with hj | hj
          · exact getElem?_set_kept (fun y : Face T => y.isDisabled indexMax = true) _ _
              { f with m_he := indexMax, m_pointsOnPositiveSide := none } _ hf
              (fun _ => by simp [Face.isDisabled]) j (hdis j hj)
          · rw [List.mem_singleton.mp hj]
            refine ⟨{ f with m_he := indexMax, m_pointsOnPositiveSide := none }, ?_, ?_⟩
            · simp only [List.getElem?_set, if_true, hlt]
            · simp [Face.isDisabled]
        · exact List.nodup_append.mpr ⟨hnd, List.nodup_singleton _, by
            intro x hx hx1
            rw [List.mem_singleton.mp hx1] at hx
            exact hnotin hx⟩
  | writeHalfEdge faceIndex he =>
    cases hf : m.m_faces[faceIndex]? with
    | none => simp [PoolOp.apply, hf] at h
    | some f =>
      by_cases hg : he ≠ indexMax ∧ faceIndex ∉ m.m_disabledFaces
      · simp only [PoolOp.apply, hf] at h
        rw [if_pos hg] at h
        simp only [Option.some.injEq] at h
        subst h
        refine ⟨?_, hnd⟩
        intro j hj
        have hne : faceIndex ≠ j := fun heq => hg.2 (heq ▸ hj)
        obtain ⟨face, hface, hd⟩ := hdis j hj
        exact ⟨face, by simp only [List.getElem?_set_ne hne]; exact hface, hd⟩
      · simp only [PoolOp.apply, hf] at h
        rw [if_neg hg] at h
        exact absurd h (by simp)

theorem facePoolInv_runPoolOps (indexMax : Nat) (ops : List PoolOp) :
    ∀ (m m1 : Mesh T), FacePoolInv indexMax m → runPoolOps indexMax m ops = some m1 →
      FacePoolInv indexMax m1 := by
  induction ops with
  | nil =>
    intro m m1 hinv h
    simp only [runPoolOps, Option.some.injEq] at h
    exact h ▸ hinv
  | cons op ops ih =>
    intro m m1 hinv h
    cases hs : op.apply indexMax m with
    | none => simp [runPoolOps, hs] at h
    | some m2 =>
      simp only [runPoolOps, hs] at h
      exact ih m2 m1 (facePoolInv_step indexMax op m m2 hinv hs) h

end Pool

/-- C7: starting from `Mesh(a, b, c, d)` or from `Mesh()`, after any sequence
of `addFace()`, `disableFace(f)` on in-range faces that are not disabled, and
writes of a non-sentinel `m_he` into faces that are not in `m_disabledFaces`,
every index in `m_disabledFaces` is the index of a disabled face, no index is
in `m_disabledFaces` twice, and the index of an enabled face is not in it. -/
theorem face_pool_invariant {T : Type} [Zero T] (indexMax a b c d : Nat) (start m : Mesh T)
    (ops : List PoolOp)
    (hstart : start = Mesh.tetrahedron indexMax a b c d ∨ start = Mesh.empty)
    (hrun : runPoolOps indexMax start ops = some m) :
    (∀ i ∈ m.m_disabledFaces, ∃ face : Face T, m.m_faces[i]? = some face ∧
      face.isDisabled indexMax = true) ∧
    m.m_disabledFaces.Nodup ∧
    (∀ (i : Nat) (face : Face T), m.m_faces[i]? = some face →
      face.isDisabled indexMax = false → i ∉ m.m_disabledFaces) := by
  have hinit : FacePoolInv indexMax start := by
    rcases hstart with h | h <;> subst h
    · exact ⟨by simp [Mesh.tetrahedron], by simp [Mesh.tetrahedron]⟩
    · exact ⟨by simp [Mesh.empty], by simp [Mesh.empty]⟩
  obtain ⟨hdis, hnd⟩ := facePoolInv_runPoolOps indexMax ops start m hinit hrun
  refine ⟨hdis, hnd, ?_⟩
  intro i face hface hen hmem
  obtain ⟨face1, hface1, hd⟩ := hdis i hmem
  rw [hface] at hface1
  rw [Option.some.inj hface1, hd] at hen
  exact absurd hen (by simp)

/-- C7, on `Mesh(0, 1, 2, 3)` after `disableFace(2)`, `addFace()`, a write of
`m_he = 6` into face `2`, `disableFace(0)`, `disableFace(2)`, `addFace()`. -/
theorem face_pool_invariant_witness :
    ∃ m : Mesh ℚ,
      runPoolOps 255 (Mesh.tetrahedron 255 0 1 2 3)
        [.disableFace 2, .addFace, .writeHalfEdge 2 6, .disableFace 0, .disableFace 2, .addFace]
        = some m ∧
      m.m_disabledFaces = [0] ∧
      (∀ i ∈ m.m_disabledFaces, ∃ face : Face ℚ, m.m_faces[i]? = some face ∧
        face.isDisabled 255 = true) ∧
      m.m_disabledFaces.Nodup ∧
      (∀ (i : Nat) (face : Face ℚ), m.m_faces[i]? = some face →
        face.isDisabled 255 = false → i ∉ m.m_disabledFaces) :=
  ⟨_, rfl, rfl,
    face_pool_invariant 255 0 1 2 3 (Mesh.tetrahedron 255 0 1 2 3) _
      [.disableFace 2, .addFace, .writeHalfEdge 2 6, .disableFace 0, .disableFace 2, .addFace]
      (Or.inl rfl) rfl⟩

/-! ## Effect of `disableFace` -/

/-- C8: on an in-range face `f`, `disableFace(f)` returns the point list the
face held; afterwards face `f` is disabled and holds no point list, its other
fields are as before, `m_disabledFaces` is the old pool followed by `f`, and
`m_halfEdges`, `m_disabledHalfEdges`, `m_indexVectorPool` and every other face
are unchanged. -/
theorem disableFace_frame {T : Type} (indexMax : Nat) (m : Mesh T) (f : Nat) (face : Face T)
    (hf : m.m_faces[f]? = some face) :
    ∃ (m1 : Mesh T) (face1 : Face T),
      m.disableFace indexMax f = some (face.m_pointsOnPositiveSide, m1) ∧
      m1.m_faces[f]? = some face1 ∧
      face1.isDisabled indexMax = true ∧
      face1.m_pointsOnPositiveSide = none ∧
      face1.m_P = face.m_P ∧
      face1.m_mostDistantPoint = face.m_mostDistantPoint ∧
      face1.m_mostDistantPointDist = face.m_mostDistantPointDist ∧
      face1.m_visibilityCheckedOnIteration = face.m_visibilityCheckedOnIteration ∧
      face1.m_isVisibleFaceOnCurrentIteration = face.m_isVisibleFaceOnCurrentIteration ∧
      face1.m_inFaceStack = face.m_inFaceStack ∧
      face1.m_horizonEdgesOnCurrentIteration = face.m_horizonEdgesOnCurrentIteration ∧
      m1.m_disabledFaces = m.m_disabledFaces ++ [f] ∧
      m1.m_halfEdges = m.m_halfEdges ∧
      m1.m_disabledHalfEdges = m.m_disabledHalfEdges ∧
      m1.m_indexVectorPool = m.m_indexVectorPool ∧
      m1.m_faces.length = m.m_faces.length ∧
      ∀ g : Nat, g ≠ f → m1.m_faces[g]? = m.m_faces[g]? := by
  have hlt : f < m.m_faces.length := (List.getElem?_eq_some.mp hf).1
  refine ⟨_, { face with m_he := indexMax, m_pointsOnPositiveSide := none },
    disableFace_some indexMax m f face hf, ?_, ?_, rfl, rfl, rfl, rfl, rfl, rfl, rfl, rfl,
    rfl, rfl, rfl, rfl, ?_, ?_⟩
  · simp only [List.getElem?_set, if_true, hlt]
  · simp [Face.isDisabled]
  · simp
  · intro g hg
    simp only [List.getElem?_set_ne (Ne.symm hg)]

/-- C8, at face `1` of a tetrahedron whose face `1` holds the points `7, 8`. -/
theorem disableFace_frame_witness :
    ∃ (m1 : Mesh ℚ) (face1 : Face ℚ),
      Mesh.disableFace 255
        { (Mesh.tetrahedron 255 0 1 2 3 : Mesh ℚ) with
          m_faces := [{ Face.new 255 with m_he := 0 },
            { Face.new 255 with m_he := 3, m_pointsOnPositiveSide := some ⟨[7, 8], 4⟩ }] } 1
        = some (some ⟨[7, 8], 4⟩, m1) ∧
      m1.m_faces[1]? = some face1 ∧
      face1.isDisabled 255 = true ∧
      face1.m_pointsOnPositiveSide = none ∧
      face1.m_P = none ∧
      face1.m_mostDistantPoint = 0 ∧
      face1.m_mostDistantPointDist = 0 ∧
      face1.m_visibilityCheckedOnIteration = 0 ∧
      face1.m_isVisibleFaceOnCurrentIteration = 0 ∧
      face1.m_inFaceStack = 0 ∧
      face1.m_horizonEdgesOnCurrentIteration = 0 ∧
      m1.m_disabledFaces = [] ++ [1] ∧
      m1.m_halfEdges = (Mesh.tetrahedron 255 0 1 2 3 : Mesh ℚ).m_halfEdges ∧
      m1.m_disabledHalfEdges = [] ∧
      m1.m_indexVectorPool = [] ∧
      m1.m_faces.length = 2 ∧
      ∀ g : Nat, g ≠ 1 → m1.m_faces[g]? =
        [({ Face.new 255 with m_he := 0 } : Face ℚ),
          { Face.new 255 with m_he := 3, m_pointsOnPositiveSide := some ⟨[7, 8], 4⟩ }][g]? :=
  disableFace_frame 255
    { (Mesh.tetrahedron 255 0 1 2 3 : Mesh ℚ) with
      m_faces := [{ Face.new 255 with m_he := 0 },
        { Face.new 255 with m_he := 3, m_pointsOnPositiveSide := some ⟨[7, 8], 4⟩ }] } 1
    { Face.new 255 with m_he := 3, m_pointsOnPositiveSide := some ⟨[7, 8], 4⟩ } rfl

/-! ## The index-vector pool -/

/-- C9: for a buffer of size `s` and capacity `c` with `(s + 1) * 128` below
`2 ^ sizeBits`, `reclaimToIndexVectorPool` leaves the mesh as it is when
`(s + 1) * 128 < c` and otherwise appends the buffer, unchanged, at the end of
`m_indexVectorPool`; the pool is unchanged exactly in the first case. -/
theorem reclaimToIndexVectorPool_policy {T : Type} (sizeBits : Nat) (m : Mesh T)
    (v : IndexVector) (hfit : (v.size + 1) * 128 < 2 ^ sizeBits) :
    ∃ m1 : Mesh T, m.reclaimToIndexVectorPool sizeBits (some v) = some m1 ∧
      (m1.m_indexVectorPool = m.m_indexVectorPool ↔ (v.size + 1) * 128 < v.capacity) ∧
      ((v.size + 1) * 128 < v.capacity → m1 = m) ∧
      (¬ (v.size + 1) * 128 < v.capacity →
        m1 = { m with m_indexVectorPool := m.m_indexVectorPool ++ [some v] }) := by
  by_cases hc : (v.size + 1) * 128 < v.capacity
  · refine ⟨m, ?_, ?_, fun _ => rfl, fun h => absurd hc h⟩
    · simp [Mesh.reclaimToIndexVectorPool, Nat.mod_eq_of_lt hfit, hc]
    · simp [hc]
  · refine ⟨{ m with m_indexVectorPool := m.m_indexVectorPool ++ [some v] }, ?_, ?_,
      fun h => absurd h hc, fun _ => rfl⟩
    · simp [Mesh.reclaimToIndexVectorPool, Nat.mod_eq_of_lt hfit, hc]
    · simp [hc]

/-- C9, with 64-bit sizes: a buffer of size 1 and capacity 1000 is not kept, a
buffer of size 50 and capacity 100 is kept, and a buffer of size 1 whose
capacity is exactly `(1 + 1) * 128` is kept. -/
theorem reclaimToIndexVectorPool_policy_witness :
    ((IndexVector.mk [5] 1000).size + 1) * 128 < 2 ^ 64 ∧
    (Mesh.empty : Mesh ℚ).reclaimToIndexVectorPool 64 (some ⟨[5], 1000⟩) = some Mesh.empty ∧
    (Mesh.empty : Mesh ℚ).reclaimToIndexVectorPool 64 (some ⟨List.replicate 50 0, 100⟩)
      = some { (Mesh.empty : Mesh ℚ) with
          m_indexVectorPool := [some ⟨List.replicate 50 0, 100⟩] } ∧
    (Mesh.empty : Mesh ℚ).reclaimToIndexVectorPool 64 (some ⟨[5], 256⟩)
      = some { (Mesh.empty : Mesh ℚ) with m_indexVectorPool := [some ⟨[5], 256⟩] } ∧
    ∃ m1 : Mesh ℚ, (Mesh.empty : Mesh ℚ).reclaimToIndexVectorPool 64 (some ⟨[5], 1000⟩)
        = some m1 ∧
      (m1.m_indexVectorPool = (Mesh.empty : Mesh ℚ).m_indexVectorPool ↔
        ((IndexVector.mk [5] 1000).size + 1) * 128 < (IndexVector.mk [5] 1000).capacity) ∧
      (((IndexVector.mk [5] 1000).size + 1) * 128 < (IndexVector.mk [5] 1000).capacity →
        m1 = Mesh.empty) ∧
      (¬ ((IndexVector.mk [5] 1000).size + 1) * 128 < (IndexVector.mk [5] 1000).capacity →
        m1 = { (Mesh.empty : Mesh ℚ) with
          m_indexVectorPool := (Mesh.empty : Mesh ℚ).m_indexVectorPool ++ [some ⟨[5], 1000⟩] }) :=
  ⟨by decide, by decide, by decide, by decide,
    reclaimToIndexVectorPool_policy 64 Mesh.empty ⟨[5], 1000⟩ (by decide)⟩

/-! ## Planes -/

theorem isPointOnPositiveSide_sign {T : Type} [LinearOrderedField T] (p : Plane T)
    (Q : Vector3 T) :
    p.isPointOnPositiveSide Q = true ↔ 0 ≤ mathutils.getSignedDistanceToPlane Q p := by
  simp [Plane.isPointOnPositiveSide, mathutils.getSignedDistanceToPlane]

/-- C10: over a linearly ordered field, `Plane(N, P)` has `m_D == -dot(N, P)`
and `m_sqrNLength == dot(N, N)`; the signed distance of `P + t * N` is
`t * m_sqrNLength`; `P` has signed distance `0` and is on the positive side.
For `N = (0, 1, 0)` and `P = (0, 0, 0)` the signed distances of `(0, 5, 0)`,
`(0, -5, 0)` and `(0, 0, 0)` are `5`, `-5` and `0`, the last point being on the
positive side. -/
theorem plane_ofNormalPoint {T : Type} [LinearOrderedField T] :
    (∀ (N P : Vector3 T) (t : T),
      (Plane.ofNormalPoint N P).m_D = -(N.dotProduct P) ∧
      (Plane.ofNormalPoint N P).m_sqrNLength = N.dotProduct N ∧
      mathutils.getSignedDistanceToPlane (P.add (Vector3.smul t N)) (Plane.ofNormalPoint N P)
        = t * (Plane.ofNormalPoint N P).m_sqrNLength ∧
      mathutils.getSignedDistanceToPlane P (Plane.ofNormalPoint N P) = 0 ∧
      (Plane.ofNormalPoint N P).isPointOnPositiveSide P = true) ∧
    mathutils.getSignedDistanceToPlane (⟨0, 5, 0⟩ : Vector3 T)
      (Plane.ofNormalPoint ⟨0, 1, 0⟩ ⟨0, 0, 0⟩) = 5 ∧
    mathutils.getSignedDistanceToPlane (⟨0, -5, 0⟩ : Vector3 T)
      (Plane.ofNormalPoint ⟨0, 1, 0⟩ ⟨0, 0, 0⟩) = -5 ∧
    mathutils.getSignedDistanceToPlane (⟨0, 0, 0⟩ : Vector3 T)
      (Plane.ofNormalPoint ⟨0, 1, 0⟩ ⟨0, 0, 0⟩) = 0 ∧
    (Plane.ofNormalPoint (⟨0, 1, 0⟩ : Vector3 T) ⟨0, 0, 0⟩).isPointOnPositiveSide ⟨0, 0, 0⟩
      = true := by
  refine ⟨?_, ?_, ?_, ?_, ?_⟩
  · intro N P t
    have hzero : N.dotProduct P + -(N.dotProduct P) = 0 := add_neg_cancel _
    refine ⟨rfl, rfl, ?_, ?_, ?_⟩
    · simp only [mathutils.getSignedDistanceToPlane, Plane.ofNormalPoint, Vector3.dotProduct,
        Vector3.add, Vector3.smul]
      ring
    · simp [mathutils.getSignedDistanceToPlane, Plane.ofNormalPoint]
    · simp only [Plane.isPointOnPositiveSide, Plane.ofNormalPoint, hzero, le_refl, if_true]
  · simp [mathutils.getSignedDistanceToPlane, Plane.ofNormalPoint, Vector3.dotProduct]
  · simp [mathutils.getSignedDistanceToPlane, Plane.ofNormalPoint, Vector3.dotProduct]
  · simp [mathutils.getSignedDistanceToPlane, Plane.ofNormalPoint, Vector3.dotProduct]
  · simp [Plane.isPointOnPositiveSide, Plane.ofNormalPoint, Vector3.dotProduct]

/-- C11: for every scalar type, `isPointOnPositiveSide(Q)` is true exactly when
`getSignedDistanceToPlane(Q, p) >= 0`, the signed distance being
`dot(m_N, Q) + m_D`; a point at distance `0` is on the positive side and a
point at negative distance is not.  No law of arithmetic is assumed of `+` and
`*`, so rounding arithmetic is covered; the last two parts name the two facts
about the comparison they use, `0 <= 0` and that a value below `0` is not
`>= 0`, which hold in every ordered field and for floating-point comparison. -/
theorem isPointOnPositiveSide_iff {T : Type} [Add T] [Mul T] [Zero T] [LE T] [LT T]
    [DecidableRel (fun (a b : T) => a ≤ b)] (p : Plane T) (Q : Vector3 T) :
    mathutils.getSignedDistanceToPlane Q p = p.m_N.dotProduct Q + p.m_D ∧
    (p.isPointOnPositiveSide Q = true ↔ 0 ≤ mathutils.getSignedDistanceToPlane Q p) ∧
    (p.isPointOnPositiveSide Q = false ↔ ¬ 0 ≤ mathutils.getSignedDistanceToPlane Q p) ∧
    ((0 : T) ≤ 0 → mathutils.getSignedDistanceToPlane Q p = 0 →
      p.isPointOnPositiveSide Q = true) ∧
    ((∀ x : T, x < 0 → ¬ 0 ≤ x) → mathutils.getSignedDistanceToPlane Q p < 0 →
      p.isPointOnPositiveSide Q = false) := by
  have hiff : p.isPointOnPositiveSide Q = true ↔ 0 ≤ mathutils.getSignedDistanceToPlane Q p := by
    unfold Plane.isPointOnPositiveSide mathutils.getSignedDistanceToPlane
    by_cases h : 0 ≤ p.m_N.dotProduct Q + p.m_D
    · simp only [h, if_true]
    · simp only [h, if_false]
      exact ⟨fun hc => absurd hc (by simp), fun hc => absurd hc (by simp)⟩
  have hnot : p.isPointOnPositiveSide Q = false ↔
      ¬ 0 ≤ mathutils.getSignedDistanceToPlane Q p := by
    rw [← hiff]
    cases p.isPointOnPositiveSide Q <;> simp
  refine ⟨rfl, hiff, hnot, fun hzero h0 => hiff.mpr (h0 ▸ hzero), fun hneg hlt => ?_⟩
  exact hnot.mpr (hneg _ hlt)

/-- C11, for the plane with normal `(1, 2, 3)` and offset `-6`: `(1, 1, 1)` is
at distance `0` and on the positive side, `(0, 0, 0)` is at distance `-6` and
not on it. -/
theorem isPointOnPositiveSide_iff_witness :
    (0 : ℚ) ≤ 0 ∧ (∀ x : ℚ, x < 0 → ¬ 0 ≤ x) ∧
    mathutils.getSignedDistanceToPlane (⟨1, 1, 1⟩ : Vector3 ℚ) ⟨⟨1, 2, 3⟩, -6, 14⟩ = 0 ∧
    (Plane.mk (⟨1, 2, 3⟩ : Vector3 ℚ) (-6) 14).isPointOnPositiveSide ⟨1, 1, 1⟩ = true ∧
    mathutils.getSignedDistanceToPlane (⟨0, 0, 0⟩ : Vector3 ℚ) ⟨⟨1, 2, 3⟩, -6, 14⟩ < 0 ∧
    (Plane.mk (⟨1, 2, 3⟩ : Vector3 ℚ) (-6) 14).isPointOnPositiveSide ⟨0, 0, 0⟩ = false :=
  have hzero : (0 : ℚ) ≤ 0 := le_refl 0
  have hneg : ∀ x : ℚ, x < 0 → ¬ 0 ≤ x := fun _ hx => not_le.mpr hx
  have h0 : mathutils.getSignedDistanceToPlane (⟨1, 1, 1⟩ : Vector3 ℚ) ⟨⟨1, 2, 3⟩, -6, 14⟩ = 0 := by
    norm_num [mathutils.getSignedDistanceToPlane, Vector3.dotProduct]
  have h1 : mathutils.getSignedDistanceToPlane (⟨0, 0, 0⟩ : Vector3 ℚ) ⟨⟨1, 2, 3⟩, -6, 14⟩ < 0 := by
    norm_num [mathutils.getSignedDistanceToPlane, Vector3.dotProduct]
  ⟨hzero, hneg, h0,
    (isPointOnPositiveSide_iff ⟨⟨1, 2, 3⟩, -6, 14⟩ ⟨1, 1, 1⟩).2.2.2.1 hzero h0, h1,
    (isPointOnPositiveSide_iff ⟨⟨1, 2, 3⟩, -6, 14⟩ ⟨0, 0, 0⟩).2.2.2.2 hneg h1⟩

/-- C12: for `k > 0`, the signed distance to `Plane(k * N, P)` is `k` times the
signed distance to `Plane(N, P)`; the two distances have the same sign and
`isPointOnPositiveSide` gives the same answer for both planes. -/
theorem signedDistance_scale_normal {T : Type} [LinearOrderedField T] (N P Q : Vector3 T)
    (k : T) (hk : 0 < k) :
    mathutils.getSignedDistanceToPlane Q (Plane.ofNormalPoint (Vector3.smul k N) P)
      = k * mathutils.getSignedDistanceToPlane Q (Plane.ofNormalPoint N P) ∧
    (0 < mathutils.getSignedDistanceToPlane Q (Plane.ofNormalPoint (Vector3.smul k N) P) ↔
      0 < mathutils.getSignedDistanceToPlane Q (Plane.ofNormalPoint N P)) ∧
    (mathutils.getSignedDistanceToPlane Q (Plane.ofNormalPoint (Vector3.smul k N) P) = 0 ↔
      mathutils.getSignedDistanceToPlane Q (Plane.ofNormalPoint N P) = 0) ∧
    (mathutils.getSignedDistanceToPlane Q (Plane.ofNormalPoint (Vector3.smul k N) P) < 0 ↔
      mathutils.getSignedDistanceToPlane Q (Plane.ofNormalPoint N P) < 0) ∧
    (Plane.ofNormalPoint (Vector3.smul k N) P).isPointOnPositiveSide Q
      = (Plane.ofNormalPoint N P).isPointOnPositiveSide Q := by
  have hscale : mathutils.getSignedDistanceToPlane Q (Plane.ofNormalPoint (Vector3.smul k N) P)
      = k * mathutils.getSignedDistanceToPlane Q (Plane.ofNormalPoint N P) := by
    simp only [mathutils.getSignedDistanceToPlane, Plane.ofNormalPoint, Vector3.dotProduct,
      Vector3.smul]
    ring
  refine ⟨hscale, ?_, ?_, ?_, ?_⟩
  · rw [hscale]
    exact mul_pos_iff_of_pos_left hk
  · rw [hscale]
    exact ⟨fun h => (mul_eq_zero.mp h).resolve_left (ne_of_gt hk), fun h => by rw [h, mul_zero]⟩
  · rw [hscale]
    exact ⟨fun h => by
        by_contra hge
        exact absurd h (not_lt.mpr (mul_nonneg (le_of_lt hk) (not_lt.mp hge))),
      fun h => mul_neg_of_pos_of_neg hk h⟩
  · have h1 := (isPointOnPositiveSide_sign (Plane.ofNormalPoint (Vector3.smul k N) P) Q)
    have h2 := (isPointOnPositiveSide_sign (Plane.ofNormalPoint N P) Q)
    have hnn : 0 ≤ mathutils.getSignedDistanceToPlane Q (Plane.ofNormalPoint (Vector3.smul k N) P)
        ↔ 0 ≤ mathutils.getSignedDistanceToPlane Q (Plane.ofNormalPoint N P) := by
      rw [hscale]
      exact ⟨fun h => by
          by_contra hlt
          exact absurd h (not_le.mpr (mul_neg_of_pos_of_neg hk (not_le.mp hlt))),
        fun h => mul_nonneg (le_of_lt hk) h⟩
    cases hb : (Plane.ofNormalPoint N P).isPointOnPositiveSide Q with
    | true => exact h1.mpr (hnn.mpr (h2.mp hb))
    | false =>
      cases ha : (Plane.ofNormalPoint (Vector3.smul k N) P).isPointOnPositiveSide Q with
      | false => rfl
      | true =>
        have := h2.mpr (hnn.mp (h1.mp ha))
        rw [hb] at this
        exact absurd this (by simp)

/-- C12, with `N = (0, 1, 0)`, `P = (0, 0, 0)`, `Q = (0, 5, 0)` and `k = 3`. -/
theorem signedDistance_scale_normal_witness :
    (0 : ℚ) < 3 ∧
    mathutils.getSignedDistanceToPlane (⟨0, 5, 0⟩ : Vector3 ℚ)
      (Plane.ofNormalPoint (Vector3.smul 3 ⟨0, 1, 0⟩) ⟨0, 0, 0⟩)
      = 3 * mathutils.getSignedDistanceToPlane (⟨0, 5, 0⟩ : Vector3 ℚ)
          (Plane.ofNormalPoint ⟨0, 1, 0⟩ ⟨0, 0, 0⟩) ∧
    (Plane.ofNormalPoint (Vector3.smul 3 (⟨0, 1, 0⟩ : Vector3 ℚ)) ⟨0, 0, 0⟩).isPointOnPositiveSide
        ⟨0, 5, 0⟩
      = (Plane.ofNormalPoint (⟨0, 1, 0⟩ : Vector3 ℚ) ⟨0, 0, 0⟩).isPointOnPositiveSide ⟨0, 5, 0⟩ :=
  ⟨by norm_num,
    (signedDistance_scale_normal ⟨0, 1, 0⟩ ⟨0, 0, 0⟩ ⟨0, 5, 0⟩ 3 (by norm_num)).1,
    (signedDistance_scale_normal ⟨0, 1, 0⟩ ⟨0, 0, 0⟩ ⟨0, 5, 0⟩ 3 (by norm_num)).2.2.2.2⟩

/-! ## Triangle normals -/

/-- C13: `getTriangleNormal(a, b, c)` is the cross product `(a - c) x (b - c)`;
it is orthogonal to `a - c` and to `b - c`, and it is the zero vector when
`a`, `b`, `c` are collinear, that is when `s * (a - c) + t * (b - c)` vanishes
for some `s`, `t` that are not both zero. -/
theorem getTriangleNormal_cross {T : Type} [LinearOrderedField T] (a b c : Vector3 T) :
    mathutils.getTriangleNormal a b c = (a.sub c).crossProduct (b.sub c) ∧
    (mathutils.getTriangleNormal a b c).dotProduct (a.sub c) = 0 ∧
    (mathutils.getTriangleNormal a b c).dotProduct (b.sub c) = 0 ∧
    (∀ s t : T, (s ≠ 0 ∨ t ≠ 0) →
      (Vector3.smul s (a.sub c)).add (Vector3.smul t (b.sub c)) = ⟨0, 0, 0⟩ →
      mathutils.getTriangleNormal a b c = ⟨0, 0, 0⟩) := by
  refine ⟨rfl, ?_, ?_, ?_⟩
  · simp only [mathutils.getTriangleNormal, Vector3.dotProduct, Vector3.sub]
    ring
  · simp only [mathutils.getTriangleNormal, Vector3.dotProduct, Vector3.sub]
    ring
  · intro s t hst hdep
    simp only [Vector3.add, Vector3.smul, Vector3.sub, Vector3.mk.injEq] at hdep
    obtain ⟨hx, hy, hz⟩ := hdep
    simp only [mathutils.getTriangleNormal, Vector3.mk.injEq]
    rcases hst with hs | ht
    · refine ⟨?_, ?_, ?_⟩
      · exact (mul_eq_zero.mp (by linear_combination (b.z - c.z) * hy - (b.y - c.y) * hz :
          s * ((a.y - c.y) * (b.z - c.z) - (a.z - c.z) * (b.y - c.y)) = 0)).resolve_left hs
      · exact (mul_eq_zero.mp (by linear_combination (b.x - c.x) * hz - (b.z - c.z) * hx :
          s * ((a.z - c.z) * (b.x - c.x) - (a.x - c.x) * (b.z - c.z)) = 0)).resolve_left hs
      · exact (mul_eq_zero.mp (by linear_combination (b.y - c.y) * hx - (b.x - c.x) * hy :
          s * ((a.x - c.x) * (b.y - c.y) - (a.y - c.y) * (b.x - c.x)) = 0)).resolve_left hs
    · refine ⟨?_, ?_, ?_⟩
      · exact (mul_eq_zero.mp (by linear_combination (a.y - c.y) * hz - (a.z - c.z) * hy :
          t * ((a.y - c.y) * (b.z - c.z) - (a.z - c.z) * (b.y - c.y)) = 0)).resolve_left ht
      · exact (mul_eq_zero.mp (by linear_combination (a.z - c.z) * hx - (a.x - c.x) * hz :
          t * ((a.z - c.z) * (b.x - c.x) - (a.x - c.x) * (b.z - c.z)) = 0)).resolve_left ht
      · exact (mul_eq_zero.mp (by linear_combination (a.x - c.x) * hy - (a.y - c.y) * hx :
          t * ((a.x - c.x) * (b.y - c.y) - (a.y - c.y) * (b.x - c.x)) = 0)).resolve_left ht

/-- C13, at the collinear points `(3, 3, 3)`, `(2, 2, 2)`, `(1, 1, 1)`, for which
`1 * (a - c) + (-2) * (b - c)` vanishes. -/
theorem getTriangleNormal_cross_witness :
    ((1 : ℚ) ≠ 0 ∨ (-2 : ℚ) ≠ 0) ∧
    (Vector3.smul (1 : ℚ) ((⟨3, 3, 3⟩ : Vector3 ℚ).sub ⟨1, 1, 1⟩)).add
      (Vector3.smul (-2) ((⟨2, 2, 2⟩ : Vector3 ℚ).sub ⟨1, 1, 1⟩)) = ⟨0, 0, 0⟩ ∧
    mathutils.getTriangleNormal (⟨3, 3, 3⟩ : Vector3 ℚ) ⟨2, 2, 2⟩ ⟨1, 1, 1⟩ = ⟨0, 0, 0⟩ :=
  have hst : (1 : ℚ) ≠ 0 ∨ (-2 : ℚ) ≠ 0 := Or.inl one_ne_zero
  have hdep : (Vector3.smul (1 : ℚ) ((⟨3, 3, 3⟩ : Vector3 ℚ).sub ⟨1, 1, 1⟩)).add
      (Vector3.smul (-2) ((⟨2, 2, 2⟩ : Vector3 ℚ).sub ⟨1, 1, 1⟩)) = ⟨0, 0, 0⟩ := by
    norm_num [Vector3.add, Vector3.smul, Vector3.sub]
  ⟨hst, hdep, (getTriangleNormal_cross ⟨3, 3, 3⟩ ⟨2, 2, 2⟩ ⟨1, 1, 1⟩).2.2.2 1 (-2) hst hdep⟩

/-- C19: `getTriangleNormal` is unchanged by a cyclic rotation of its
arguments and negated by a swap of the first two; for `a = (1, 0, 0)`,
`b = (0, 1, 0)`, `c = (0, 0, 0)` it is `(0, 0, 1)`. -/
theorem getTriangleNormal_ordering {T : Type} [LinearOrderedField T] :
    (∀ a b c : Vector3 T,
      mathutils.getTriangleNormal a b c = mathutils.getTriangleNormal b c a ∧
      mathutils.getTriangleNormal b c a = mathutils.getTriangleNormal c a b ∧
      mathutils.getTriangleNormal b a c = (mathutils.getTriangleNormal a b c).neg) ∧
    mathutils.getTriangleNormal (⟨1, 0, 0⟩ : Vector3 T) ⟨0, 1, 0⟩ ⟨0, 0, 0⟩ = ⟨0, 0, 1⟩ := by
  refine ⟨fun a b c => ⟨?_, ?_, ?_⟩, ?_⟩
  · simp only [mathutils.getTriangleNormal, Vector3.mk.injEq]
    refine ⟨?_, ?_, ?_⟩ <;> ring
  · simp only [mathutils.getTriangleNormal, Vector3.mk.injEq]
    refine ⟨?_, ?_, ?_⟩ <;> ring
  · simp only [mathutils.getTriangleNormal, Vector3.neg, Vector3.mk.injEq]
    refine ⟨?_, ?_, ?_⟩ <;> ring
  · simp [mathutils.getTriangleNormal]

/-! ## Distance between a point and a ray -/

theorem squaredLength_pos {T : Type} [LinearOrderedField T] (V : Vector3 T)
    (hV : V ≠ ⟨0, 0, 0⟩) : 0 < V.squaredLength := by
  have hnn : 0 ≤ V.squaredLength := by
    simp only [Vector3.squaredLength]
    nlinarith [mul_self_nonneg V.x, mul_self_nonneg V.y, mul_self_nonneg V.z]
  rcases lt_or_eq_of_le hnn with h | h
  · exact h
  · exfalso
    apply hV
    simp only [Vector3.squaredLength] at h
    have hx : V.x * V.x = 0 := by
      nlinarith [mul_self_nonneg V.x, mul_self_nonneg V.y, mul_self_nonneg V.z]
    have hy : V.y * V.y = 0 := by
      nlinarith [mul_self_nonneg V.x, mul_self_nonneg V.y, mul_self_nonneg V.z]
    have hz : V.z * V.z = 0 := by
      nlinarith [mul_self_nonneg V.x, mul_self_nonneg V.y, mul_self_nonneg V.z]
    obtain ⟨x, y, z⟩ := V
    simp only [Vector3.mk.injEq]
    exact ⟨mul_self_eq_zero.mp hx, mul_self_eq_zero.mp hy, mul_self_eq_zero.mp hz⟩

theorem squaredLength_eq_zero {T : Type} [LinearOrderedField T] (V : Vector3 T)
    (h : V.squaredLength = 0) : V = ⟨0, 0, 0⟩ := by
  by_contra hV
  exact absurd h (ne_of_gt (squaredLength_pos V hV))

theorem squaredDistance_along_line {T : Type} [LinearOrderedField T] (p S V : Vector3 T)
    (hV : V ≠ ⟨0, 0, 0⟩) (t : T) :
    (p.sub (S.add (Vector3.smul t V))).squaredLength
      = mathutils.getSquaredDistanceBetweenPointAndRay p ⟨S, V⟩
        + V.squaredLength
          * ((t - (p.sub S).dotProduct V / V.squaredLength)
            * (t - (p.sub S).dotProduct V / V.squaredLength)) := by
  have hL : V.squaredLength ≠ 0 := ne_of_gt (squaredLength_pos V hV)
  simp only [mathutils.getSquaredDistanceBetweenPointAndRay]
  field_simp
  simp only [Vector3.squaredLength, Vector3.dotProduct, Vector3.sub, Vector3.add, Vector3.smul]
  ring

/-- C14: for a ray with origin `S` and non-zero direction `V`,
`getSquaredDistanceBetweenPointAndRay(p, ray)` is
`|p - S|^2 - dot(p - S, V)^2 / |V|^2`; it is the least value of
`|p - (S + t * V)|^2` over all `t`, attained at `t = dot(p - S, V) / |V|^2`; it
is not negative, it is `0` exactly when `p` is a point `S + t * V` of the line,
and it is the same for the direction `k * V` with `k` not zero. -/
theorem squaredDistance_point_ray {T : Type} [LinearOrderedField T] (p S V : Vector3 T)
    (hV : V ≠ ⟨0, 0, 0⟩) :
    mathutils.getSquaredDistanceBetweenPointAndRay p ⟨S, V⟩
      = (p.sub S).squaredLength
        - (p.sub S).dotProduct V * (p.sub S).dotProduct V / V.squaredLength ∧
    (∀ t : T, mathutils.getSquaredDistanceBetweenPointAndRay p ⟨S, V⟩
      ≤ (p.sub (S.add (Vector3.smul t V))).squaredLength) ∧
    mathutils.getSquaredDistanceBetweenPointAndRay p ⟨S, V⟩
      = (p.sub (S.add (Vector3.smul ((p.sub S).dotProduct V / V.squaredLength) V))).squaredLength ∧
    0 ≤ mathutils.getSquaredDistanceBetweenPointAndRay p ⟨S, V⟩ ∧
    (mathutils.getSquaredDistanceBetweenPointAndRay p ⟨S, V⟩ = 0 ↔
      ∃ t : T, p = S.add (Vector3.smul t V)) ∧
    (∀ k : T, k ≠ 0 →
      mathutils.getSquaredDistanceBetweenPointAndRay p ⟨S, Vector3.smul k V⟩
        = mathutils.getSquaredDistanceBetweenPointAndRay p ⟨S, V⟩) := by
  have hLpos : 0 < V.squaredLength := squaredLength_pos V hV
  have hle : ∀ t : T, mathutils.getSquaredDistanceBetweenPointAndRay p ⟨S, V⟩
      ≤ (p.sub (S.add (Vector3.smul t V))).squaredLength := by
    intro t
    rw [squaredDistance_along_line p S V hV t]
    have := mul_nonneg (le_of_lt hLpos)
      (mul_self_nonneg (t - (p.sub S).dotProduct V / V.squaredLength))
    linarith
  have hmin : mathutils.getSquaredDistanceBetweenPointAndRay p ⟨S, V⟩
      = (p.sub (S.add
          (Vector3.smul ((p.sub S).dotProduct V / V.squaredLength) V))).squaredLength := by
    rw [squaredDistance_along_line p S V hV]
    simp
  have hsq : ∀ W : Vector3 T, 0 ≤ W.squaredLength := by
    intro W
    simp only [Vector3.squaredLength]
    nlinarith [mul_self_nonneg W.x, mul_self_nonneg W.y, mul_self_nonneg W.z]
  have hnn : 0 ≤ mathutils.getSquaredDistanceBetweenPointAndRay p ⟨S, V⟩ := by
    rw [hmin]
    exact hsq _
  refine ⟨rfl, hle, hmin, hnn, ⟨fun h0 => ?_, fun hon => ?_⟩, fun k hk => ?_⟩
  · refine ⟨(p.sub S).dotProduct V / V.squaredLength, ?_⟩
    rw [hmin] at h0
    have hzero := squaredLength_eq_zero _ h0
    simp only [Vector3.sub, Vector3.add, Vector3.smul, Vector3.mk.injEq] at hzero
    obtain ⟨hx, hy, hz⟩ := hzero
    obtain ⟨px, py, pz⟩ := p
    simp only [Vector3.add, Vector3.smul, Vector3.mk.injEq]
    exact ⟨sub_eq_zero.mp hx, sub_eq_zero.mp hy, sub_eq_zero.mp hz⟩
  · obtain ⟨t, ht⟩ := hon
    have hzero : (p.sub (S.add (Vector3.smul t V))).squaredLength = 0 := by
      rw [ht]
      simp [Vector3.squaredLength, Vector3.sub]
    exact le_antisymm (hzero ▸ hle t) hnn
  · have hL : V.squaredLength ≠ 0 := ne_of_gt hLpos
    have hkL : (Vector3.smul k V).squaredLength = k * k * V.squaredLength := by
      simp only [Vector3.squaredLength, Vector3.smul]
      ring
    have hkd : (p.sub S).dotProduct (Vector3.smul k V) = k * (p.sub S).dotProduct V := by
      simp only [Vector3.dotProduct, Vector3.smul]
      ring
    simp only [mathutils.getSquaredDistanceBetweenPointAndRay, hkL, hkd]
    field_simp
    ring

/-- C14, for the ray from `(0, 0, 0)` along `(0, 0, 2)` and the point
`(3, 4, 7)`: the squared distance is `25`. -/
theorem squaredDistance_point_ray_witness :
    (⟨0, 0, 2⟩ : Vector3 ℚ) ≠ ⟨0, 0, 0⟩ ∧
    mathutils.getSquaredDistanceBetweenPointAndRay (⟨3, 4, 7⟩ : Vector3 ℚ)
      ⟨⟨0, 0, 0⟩, ⟨0, 0, 2⟩⟩ = 25 ∧
    0 ≤ mathutils.getSquaredDistanceBetweenPointAndRay (⟨3, 4, 7⟩ : Vector3 ℚ)
      ⟨⟨0, 0, 0⟩, ⟨0, 0, 2⟩⟩ :=
  have hV : (⟨0, 0, 2⟩ : Vector3 ℚ) ≠ ⟨0, 0, 0⟩ := by
    simp [Vector3.mk.injEq]
  ⟨hV,
    by norm_num [mathutils.getSquaredDistanceBetweenPointAndRay, Vector3.sub,
      Vector3.dotProduct, Vector3.squaredLength],
    (squaredDistance_point_ray ⟨3, 4, 7⟩ ⟨0, 0, 0⟩ ⟨0, 0, 2⟩ hV).2.2.2.1⟩

/-! ## Half-edge slots -/

/-- C15: `disableHalfEdge(h)` only appends `h` to `m_disabledHalfEdges`; an
`addHalfEdge()` right after it returns `h` and gives back the mesh from before
the `disableHalfEdge`.  With an empty `m_disabledHalfEdges`, `addHalfEdge()`
returns the old `m_halfEdges.size()` and appends one record to `m_halfEdges`,
the old records staying as they are.  The old size is at most `indexMax`: it
is a value of the index type. -/
theorem halfEdge_slot_reuse {T : Type} (indexMax : Nat) :
    (∀ (m : Mesh T) (h : Nat),
      (m.disableHalfEdge h).m_disabledHalfEdges = m.m_disabledHalfEdges ++ [h] ∧
      (m.disableHalfEdge h).m_halfEdges = m.m_halfEdges ∧
      (m.disableHalfEdge h).m_faces = m.m_faces ∧
      (m.disableHalfEdge h).m_disabledFaces = m.m_disabledFaces ∧
      (m.disableHalfEdge h).m_indexVectorPool = m.m_indexVectorPool ∧
      (m.disableHalfEdge h).addHalfEdge indexMax = some (h, m)) ∧
    (∀ m : Mesh T, m.m_disabledHalfEdges = [] → m.m_halfEdges.length ≤ indexMax →
      ∃ (m1 : Mesh T) (r : HalfEdge), m.addHalfEdge indexMax = some (m.m_halfEdges.length, m1) ∧
        m1.m_halfEdges = m.m_halfEdges ++ [r] ∧
        m1.m_halfEdges.length = m.m_halfEdges.length + 1 ∧
        (∀ e : Nat, e < m.m_halfEdges.length → m1.m_halfEdges[e]? = m.m_halfEdges[e]?) ∧
        m1.m_faces = m.m_faces ∧ m1.m_disabledFaces = m.m_disabledFaces ∧
        m1.m_disabledHalfEdges = m.m_disabledHalfEdges ∧
        m1.m_indexVectorPool = m.m_indexVectorPool) := by
  constructor
  · intro m h
    refine ⟨rfl, rfl, rfl, rfl, rfl, ?_⟩
    simp [Mesh.addHalfEdge, Mesh.disableHalfEdge]
  · intro m hnil hfit
    refine ⟨{ m with m_halfEdges := m.m_halfEdges ++ [⟨0, 0, 0, 0⟩] }, ⟨0, 0, 0, 0⟩, ?_, rfl,
      by simp, ?_, rfl, rfl, rfl, rfl⟩
    · rw [addHalfEdge_append indexMax m hnil, Nat.mod_eq_of_lt (Nat.lt_succ_of_le hfit)]
    · intro e he
      exact List.getElem?_append_left he

/-- C15, on `Mesh(0, 1, 2, 3)` with an 8-bit index type: `disableHalfEdge(5)`
then `addHalfEdge()` returns `5`, and `addHalfEdge()` on the untouched mesh
returns `12`. -/
theorem halfEdge_slot_reuse_witness :
    ((Mesh.tetrahedron 255 0 1 2 3 : Mesh ℚ).disableHalfEdge 5).addHalfEdge 255
      = some (5, Mesh.tetrahedron 255 0 1 2 3) ∧
    (Mesh.tetrahedron 255 0 1 2 3 : Mesh ℚ).m_disabledHalfEdges = [] ∧
    (Mesh.tetrahedron 255 0 1 2 3 : Mesh ℚ).m_halfEdges.length ≤ 255 ∧
    ∃ (m1 : Mesh ℚ) (r : HalfEdge),
      (Mesh.tetrahedron 255 0 1 2 3 : Mesh ℚ).addHalfEdge 255 = some (12, m1) ∧
      m1.m_halfEdges = (Mesh.tetrahedron 255 0 1 2 3 : Mesh ℚ).m_halfEdges ++ [r] ∧
      m1.m_halfEdges.length = 12 + 1 ∧
      (∀ e : Nat, e < 12 →
        m1.m_halfEdges[e]? = (Mesh.tetrahedron 255 0 1 2 3 : Mesh ℚ).m_halfEdges[e]?) ∧
      m1.m_faces = (Mesh.tetrahedron 255 0 1 2 3 : Mesh ℚ).m_faces ∧
      m1.m_disabledFaces = [] ∧ m1.m_disabledHalfEdges = [] ∧ m1.m_indexVectorPool = [] :=
  ⟨((halfEdge_slot_reuse 255).1 (Mesh.tetrahedron 255 0 1 2 3) 5).2.2.2.2.2, rfl, by decide,
    (halfEdge_slot_reuse 255).2 (Mesh.tetrahedron 255 0 1 2 3) rfl (by decide)⟩

/-! ## Reissue of a face slot -/

/-- C18: when `m_disabledFaces` ends in an index `i` whose face is disabled and
holds no point list, `addFace()` returns `i`, removes that last entry, sets
`m_mostDistantPointDist` of face `i` to `0` and changes nothing else: face `i`
keeps its `m_he` (the sentinel), plane, `m_mostDistantPoint`, iteration stamp
and scratch flags, and the other faces, `m_halfEdges`, `m_disabledHalfEdges`
and the number of faces are as before. -/
theorem addFace_reissue_frame {T : Type} [Zero T] (indexMax : Nat) (m : Mesh T) (l : List Nat)
    (i : Nat) (f : Face T) (hpool : m.m_disabledFaces = l ++ [i])
    (hf : m.m_faces[i]? = some f) (hdis : f.isDisabled indexMax = true)
    (hpts : f.m_pointsOnPositiveSide = none) :
    ∃ (m1 : Mesh T) (f1 : Face T),
      m.addFace indexMax = some (i, m1) ∧
      m1.m_disabledFaces = l ∧
      m1.m_faces[i]? = some f1 ∧
      f1.m_mostDistantPointDist = 0 ∧
      f1.m_he = f.m_he ∧ f1.m_he = indexMax ∧
      f1.m_P = f.m_P ∧
      f1.m_mostDistantPoint = f.m_mostDistantPoint ∧
      f1.m_visibilityCheckedOnIteration = f.m_visibilityCheckedOnIteration ∧
      f1.m_isVisibleFaceOnCurrentIteration = f.m_isVisibleFaceOnCurrentIteration ∧
      f1.m_inFaceStack = f.m_inFaceStack ∧
      f1.m_horizonEdgesOnCurrentIteration = f.m_horizonEdgesOnCurrentIteration ∧
      f1.m_pointsOnPositiveSide = none ∧
      m1.m_faces.length = m.m_faces.length ∧
      (∀ g : Nat, g ≠ i → m1.m_faces[g]? = m.m_faces[g]?) ∧
      m1.m_halfEdges = m.m_halfEdges ∧
      m1.m_disabledHalfEdges = m.m_disabledHalfEdges ∧
      m1.m_indexVectorPool = m.m_indexVectorPool := by
  have hhe : f.m_he = indexMax := by simpa [Face.isDisabled] using hdis
  have hlt : i < m.m_faces.length := (List.getElem?_eq_some.mp hf).1
  refine ⟨{ m with m_faces := m.m_faces.set i { f with m_mostDistantPointDist := 0 }
                   m_disabledFaces := l },
    { f with m_mostDistantPointDist := 0 },
    addFace_reuse indexMax m l i f hpool hf hhe hpts, rfl, ?_, rfl, rfl, hhe, rfl, rfl, rfl, rfl,
    rfl, rfl, hpts, by simp, ?_, rfl, rfl, rfl⟩
  · simp only [List.getElem?_set, if_true, hlt]
  · intro g hg
    simp only [List.getElem?_set_ne (Ne.symm hg)]

/-- C18, on a mesh whose pool is `[1]` and whose face `1` is disabled with
plane, distance `7`, point `4`, stamp `9` and all scratch flags set. -/
theorem addFace_reissue_frame_witness :
    ∃ (m1 : Mesh ℚ) (f1 : Face ℚ),
      reissueExample.addFace 255 = some (1, m1) ∧
      m1.m_disabledFaces = [] ∧
      m1.m_faces[1]? = some f1 ∧
      f1.m_mostDistantPointDist = 0 ∧
      f1.m_he = 255 ∧ f1.m_he = 255 ∧
      f1.m_P = some ⟨⟨0, 1, 0⟩, 0, 1⟩ ∧
      f1.m_mostDistantPoint = 4 ∧
      f1.m_visibilityCheckedOnIteration = 9 ∧
      f1.m_isVisibleFaceOnCurrentIteration = 1 ∧
      f1.m_inFaceStack = 1 ∧
      f1.m_horizonEdgesOnCurrentIteration = 5 ∧
      f1.m_pointsOnPositiveSide = none ∧
      m1.m_faces.length = 2 ∧
      (∀ g : Nat, g ≠ 1 → m1.m_faces[g]? = reissueExample.m_faces[g]?) ∧
      m1.m_halfEdges = tetrahedronHalfEdges 0 1 2 3 ∧
      m1.m_disabledHalfEdges = [4] ∧
      m1.m_indexVectorPool = [] :=
  addFace_reissue_frame 255 reissueExample [] 1
    { m_he := 255, m_P := some ⟨⟨0, 1, 0⟩, 0, 1⟩, m_mostDistantPointDist := 7,
      m_mostDistantPoint := 4, m_visibilityCheckedOnIteration := 9,
      m_isVisibleFaceOnCurrentIteration := 1, m_inFaceStack := 1,
      m_horizonEdgesOnCurrentIteration := 5, m_pointsOnPositiveSide := none }
    rfl rfl rfl rfl

/-! ## Taking buffers out of the index-vector pool -/

section VectorPool

variable {T : Type}

theorem getIndexVectorFromPool_empty (m : Mesh T) (h : m.m_indexVectorPool = []) :
    m.getIndexVectorFromPool = some (some IndexVector.empty, m) := by
  simp [Mesh.getIndexVectorFromPool, h]

theorem getIndexVectorFromPool_last (m : Mesh T) (l : List (Option IndexVector))
    (v : IndexVector) (h : m.m_indexVectorPool = l ++ [some v]) :
    m.getIndexVectorFromPool = some (some v.clear, { m with m_indexVectorPool := l }) := by
  simp [Mesh.getIndexVectorFromPool, h]

theorem getIndexVectorFromPool_cases (m m1 : Mesh T) (r : Option IndexVector)
    (h : m.getIndexVectorFromPool = some (r, m1)) :
    (m.m_indexVectorPool = [] ∧ r = some IndexVector.empty ∧ m1 = m) ∨
    (∃ l v, m.m_indexVectorPool = l ++ [some v] ∧ r = some v.clear ∧
      m1 = { m with m_indexVectorPool := l }) := by
  rcases List.eq_nil_or_concat m.m_indexVectorPool with hnil | ⟨l, e, hl⟩
  · left
    rw [getIndexVectorFromPool_empty m hnil] at h
    simp only [Option.some.injEq, Prod.mk.injEq] at h
    exact ⟨hnil, h.1.symm, h.2.symm⟩
  · right
    rw [List.concat_eq_append] at hl
    cases e with
    | none => simp [Mesh.getIndexVectorFromPool, hl] at h
    | some v =>
      rw [getIndexVectorFromPool_last m l v hl] at h
      simp only [Option.some.injEq, Prod.mk.injEq] at h
      exact ⟨l, v, hl, h.1.symm, h.2.symm⟩

theorem reclaimToIndexVectorPool_cases (sizeBits : Nat) (m m1 : Mesh T) (v : IndexVector)
    (h : m.reclaimToIndexVectorPool sizeBits (some v) = some m1) :
    m1 = m ∨ m1 = { m with m_indexVectorPool := m.m_indexVectorPool ++ [some v] } := by
  by_cases hc : ((v.size + 1) * 128) % 2 ^ sizeBits < v.capacity
  · left
    simp only [Mesh.reclaimToIndexVectorPool, hc, if_true, Option.some.injEq] at h
    exact h.symm
  · right
    simp only [Mesh.reclaimToIndexVectorPool, hc, if_false, Option.some.injEq] at h
    exact h.symm

theorem vectorPool_entries (sizeBits : Nat) (ops : List VectorPoolOp) :
    ∀ (m m1 : Mesh T) (seen : List IndexVector),
      (∀ e ∈ m.m_indexVectorPool, ∃ v : IndexVector, e = some v ∧ v ∈ seen) →
      runVectorPoolOps sizeBits m ops = some m1 →
      ∀ e ∈ m1.m_indexVectorPool, ∃ v : IndexVector, e = some v ∧
        (v ∈ seen ∨ VectorPoolOp.reclaim v ∈ ops) := by
  induction ops with
  | nil =>
    intro m m1 seen hm hrun e he
    simp only [runVectorPoolOps, Option.some.injEq] at hrun
    subst hrun
    obtain ⟨v, hv, hseen⟩ := hm e he
    exact ⟨v, hv, Or.inl hseen⟩
  | cons op ops ih =>
    intro m m1 seen hm hrun e he
    cases hs : op.apply sizeBits m with
    | none => simp [runVectorPoolOps, hs] at hrun
    | some m2 =>
      simp only [runVectorPoolOps, hs] at hrun
      cases op with
      | reclaim v0 =>
        have hm2 : ∀ e ∈ m2.m_indexVectorPool, ∃ v : IndexVector, e = some v ∧ v ∈ v0 :: seen := by
          intro e2 he2
          rcases reclaimToIndexVectorPool_cases sizeBits m m2 v0 hs with h | h
          · subst h
            obtain ⟨v, hv, hseen⟩ := hm e2 he2
            exact ⟨v, hv, List.mem_cons_of_mem _ hseen⟩
          · subst h
            rcases List.mem_append.mp he2 with h2 | h2
            · obtain ⟨v, hv, hseen⟩ := hm e2 h2
              exact ⟨v, hv, List.mem_cons_of_mem _ hseen⟩
            · exact ⟨v0, List.mem_singleton.mp h2, List.mem_cons_self _ _⟩
        obtain ⟨v, hv, hor⟩ := ih m2 m1 (v0 :: seen) hm2 hrun e he
        refine ⟨v, hv, ?_⟩
        rcases hor with h | h
        · rcases List.mem_cons.mp h with h | h
          · exact Or.inr (h ▸ List.mem_cons_self _ _)
          · exact Or.inl h
        · exact Or.inr (List.mem_cons_of_mem _ h)
      | get =>
        have hm2 : ∀ e ∈ m2.m_indexVectorPool, ∃ v : IndexVector, e = some v ∧ v ∈ seen := by
          intro e2 he2
          cases hg : m.getIndexVectorFromPool with
          | none => simp [VectorPoolOp.apply, hg] at hs
          | some r =>
            obtain ⟨r1, m3⟩ := r
            simp only [VectorPoolOp.apply, hg, Option.some.injEq] at hs
            subst hs
            rcases getIndexVectorFromPool_cases m m3 r1 hg with ⟨_, _, h⟩ | ⟨l, v, hl, _, h⟩
            · subst h
              exact hm e2 he2
            · subst h
              exact hm e2 (by rw [hl]; exact List.mem_append_left _ he2)
        obtain ⟨v, hv, hor⟩ := ih m2 m1 seen hm2 hrun e he
        refine ⟨v, hv, ?_⟩
        rcases hor with h | h
        · exact Or.inl h
        · exact Or.inr (List.mem_cons_of_mem _ h)

end VectorPool

/-- C16: on every pool of present buffers, and so on every pool reached from
an empty one by `reclaimToIndexVectorPool` and `getIndexVectorFromPool` calls,
`getIndexVectorFromPool()` returns a present buffer of size `0`: on an empty
pool a new empty buffer, the pool staying empty; on a non-empty pool the last
pooled buffer, cleared (capacity kept) and removed, the other entries staying
as they are and in order; and after a `reclaimToIndexVectorPool(v)` that kept
`v`, the next call returns `v` cleared and gives back the mesh from before the
reclaim. -/
theorem getIndexVectorFromPool_spec {T : Type} (m : Mesh T)
    (hpresent : ∀ e ∈ m.m_indexVectorPool, ∃ v : IndexVector, e = some v) :
    (∃ (v : IndexVector) (m1 : Mesh T),
      m.getIndexVectorFromPool = some (some v, m1) ∧ v.size = 0) ∧
    (m.m_indexVectorPool = [] →
      m.getIndexVectorFromPool = some (some IndexVector.empty, m) ∧
      IndexVector.empty.size = 0) ∧
    (∀ (l : List (Option IndexVector)) (e : Option IndexVector),
      m.m_indexVectorPool = l ++ [e] →
      ∃ v : IndexVector, e = some v ∧
        m.getIndexVectorFromPool = some (some v.clear, { m with m_indexVectorPool := l }) ∧
        v.clear.size = 0 ∧ v.clear.capacity = v.capacity) ∧
    (∀ (sizeBits : Nat) (v : IndexVector) (m1 : Mesh T),
      m.reclaimToIndexVectorPool sizeBits (some v) = some m1 →
      m1.m_indexVectorPool ≠ m.m_indexVectorPool →
      m1.getIndexVectorFromPool = some (some v.clear, m)) ∧
    (∀ (sizeBits : Nat) (start m2 : Mesh T) (ops : List VectorPoolOp),
      start.m_indexVectorPool = [] → runVectorPoolOps sizeBits start ops = some m2 →
      (∀ e ∈ m2.m_indexVectorPool, ∃ v : IndexVector, e = some v) ∧
      ∃ (v : IndexVector) (m3 : Mesh T),
        m2.getIndexVectorFromPool = some (some v, m3) ∧ v.size = 0) := by
  have hreturns : ∀ m0 : Mesh T,
      (∀ e ∈ m0.m_indexVectorPool, ∃ v : IndexVector, e = some v) →
      ∃ (v : IndexVector) (m1 : Mesh T),
        m0.getIndexVectorFromPool = some (some v, m1) ∧ v.size = 0 := by
    intro m0 h0
    rcases List.eq_nil_or_concat m0.m_indexVectorPool with hnil | ⟨l, e, hl⟩
    · exact ⟨IndexVector.empty, m0, getIndexVectorFromPool_empty m0 hnil, rfl⟩
    · rw [List.concat_eq_append] at hl
      obtain ⟨v, hv⟩ := h0 e (by simp [hl])
      subst hv
      exact ⟨v.clear, _, getIndexVectorFromPool_last m0 l v hl, rfl⟩
  refine ⟨hreturns m hpresent, fun h => ⟨getIndexVectorFromPool_empty m h, rfl⟩, ?_, ?_, ?_⟩
  · intro l e hl
    obtain ⟨v, hv⟩ := hpresent e (by simp [hl])
    subst hv
    exact ⟨v, rfl, getIndexVectorFromPool_last m l v hl, rfl, rfl⟩
  · intro sizeBits v m1 hre hkept
    rcases reclaimToIndexVectorPool_cases sizeBits m m1 v hre with h | h
    · exact absurd (by rw [h]) hkept
    · subst h
      exact getIndexVectorFromPool_last _ m.m_indexVectorPool v rfl
  · intro sizeBits start m2 ops hstart hrun
    have hall : ∀ e ∈ m2.m_indexVectorPool, ∃ v : IndexVector, e = some v := by
      intro e he
      obtain ⟨v, hv, _⟩ := vectorPool_entries sizeBits ops start m2 []
        (by intro e1 he1; simp [hstart] at he1) hrun e he
      exact ⟨v, hv⟩
    exact ⟨hall, hreturns m2 hall⟩

/-- C16, on the pool holding the buffers `[1, 2]` and `[3]`, and after
reclaiming the buffer `[9]` of capacity `4` into the empty mesh. -/
theorem getIndexVectorFromPool_spec_witness :
    (∀ e ∈ ({ (Mesh.empty : Mesh ℚ) with
        m_indexVectorPool := [some ⟨[1, 2], 2⟩, some ⟨[3], 8⟩] }).m_indexVectorPool,
      ∃ v : IndexVector, e = some v) ∧
    (∃ v : IndexVector, some (IndexVector.mk [3] 8) = some v ∧
      ({ (Mesh.empty : Mesh ℚ) with
          m_indexVectorPool := [some ⟨[1, 2], 2⟩, some ⟨[3], 8⟩] }).getIndexVectorFromPool
        = some (some v.clear,
            { (Mesh.empty : Mesh ℚ) with m_indexVectorPool := [some ⟨[1, 2], 2⟩] }) ∧
      v.clear.size = 0 ∧ v.clear.capacity = v.capacity) ∧
    (Mesh.empty : Mesh ℚ).reclaimToIndexVectorPool 64 (some ⟨[9], 4⟩)
      = some { (Mesh.empty : Mesh ℚ) with m_indexVectorPool := [some ⟨[9], 4⟩] } ∧
    ({ (Mesh.empty : Mesh ℚ) with m_indexVectorPool := [some ⟨[9], 4⟩] }).getIndexVectorFromPool
      = some (some (IndexVector.mk [9] 4).clear, Mesh.empty) :=
  have hpresent : ∀ e ∈ ({ (Mesh.empty : Mesh ℚ) with
        m_indexVectorPool := [some ⟨[1, 2], 2⟩, some ⟨[3], 8⟩] }).m_indexVectorPool,
      ∃ v : IndexVector, e = some v := by
    intro e he
    simp only [List.mem_cons, List.mem_singleton, List.not_mem_nil, or_false] at he
    rcases he with h | h
    · exact ⟨_, h⟩
    · exact ⟨_, h⟩
  ⟨hpresent,
    (getIndexVectorFromPool_spec
      { (Mesh.empty : Mesh ℚ) with
        m_indexVectorPool := [some ⟨[1, 2], 2⟩, some ⟨[3], 8⟩] } hpresent).2.2.1
      [some ⟨[1, 2], 2⟩] (some ⟨[3], 8⟩) rfl,
    rfl,
    (getIndexVectorFromPool_spec (Mesh.empty : Mesh ℚ)
      (by intro e he; simp [Mesh.empty] at he)).2.2.2.1 64 ⟨[9], 4⟩
      { (Mesh.empty : Mesh ℚ) with m_indexVectorPool := [some ⟨[9], 4⟩] } rfl (by decide)⟩

/-- C17 fails as stated: after `reclaimToIndexVectorPool` of the buffer `[7]`
of capacity `4` into an empty pool, the pool holds that buffer, of size `1`. -/
theorem vectorPool_emptied_counterexample :
    ∃ m : Mesh ℚ,
      runVectorPoolOps 64 (Mesh.empty : Mesh ℚ) [.reclaim ⟨[7], 4⟩] = some m ∧
      m.m_indexVectorPool = [some ⟨[7], 4⟩] ∧
      (IndexVector.mk [7] 4).size = 1 ∧
      ¬ ∀ e ∈ m.m_indexVectorPool, ∀ v : IndexVector, e = some v → v.size = 0 :=
  ⟨_, rfl, rfl, rfl, by decide⟩

/-- C17, amended: in every state reached from an empty pool by
`reclaimToIndexVectorPool(v)` with present `v` and `getIndexVectorFromPool()`
calls, every pool entry is a present buffer that was passed to
`reclaimToIndexVectorPool`, stored as it was passed; buffers are emptied when
they are taken out: `getIndexVectorFromPool()` is defined in every such state
and returns a present buffer of size `0`. -/
theorem vectorPool_holds_reclaimed {T : Type} (sizeBits : Nat) (start m : Mesh T)
    (ops : List VectorPoolOp) (hstart : start.m_indexVectorPool = [])
    (hrun : runVectorPoolOps sizeBits start ops = some m) :
    (∀ e ∈ m.m_indexVectorPool, ∃ v : IndexVector, e = some v ∧
      VectorPoolOp.reclaim v ∈ ops) ∧
    ∃ (v : IndexVector) (m1 : Mesh T),
      m.getIndexVectorFromPool = some (some v, m1) ∧ v.size = 0 := by
  have hentries : ∀ e ∈ m.m_indexVectorPool, ∃ v : IndexVector, e = some v ∧
      VectorPoolOp.reclaim v ∈ ops := by
    intro e he
    obtain ⟨v, hv, hor⟩ := vectorPool_entries sizeBits ops start m []
      (by intro e1 he1; simp [hstart] at he1) hrun e he
    exact ⟨v, hv, hor.resolve_left (by simp)⟩
  refine ⟨hentries, ?_⟩
  rcases List.eq_nil_or_concat m.m_indexVectorPool with hnil | ⟨l, e, hl⟩
  · exact ⟨IndexVector.empty, m, getIndexVectorFromPool_empty m hnil, rfl⟩
  · rw [List.concat_eq_append] at hl
    obtain ⟨v, hv, _⟩ := hentries e (by simp [hl])
    subst hv
    exact ⟨v.clear, _, getIndexVectorFromPool_last m l v hl, rfl⟩

/-- C17 amended, after reclaiming `[7]` (capacity `4`), taking a buffer out and
reclaiming `[5, 6]` (capacity `2`) into an empty pool. -/
theorem vectorPool_holds_reclaimed_witness :
    ∃ m : Mesh ℚ,
      runVectorPoolOps 64 (Mesh.empty : Mesh ℚ)
        [.reclaim ⟨[7], 4⟩, .get, .reclaim ⟨[5, 6], 2⟩] = some m ∧
      m.m_indexVectorPool = [some ⟨[5, 6], 2⟩] ∧
      (∀ e ∈ m.m_indexVectorPool, ∃ v : IndexVector, e = some v ∧
        VectorPoolOp.reclaim v ∈
          [VectorPoolOp.reclaim ⟨[7], 4⟩, VectorPoolOp.get, VectorPoolOp.reclaim ⟨[5, 6], 2⟩]) ∧
      ∃ (v : IndexVector) (m1 : Mesh ℚ),
        m.getIndexVectorFromPool = some (some v, m1) ∧ v.size = 0 :=
  ⟨_, rfl, rfl,
    vectorPool_holds_reclaimed 64 Mesh.empty _
      [.reclaim ⟨[7], 4⟩, .get, .reclaim ⟨[5, 6], 2⟩] rfl rfl⟩

/-! ## Head-to-tail consistency of the initial tetrahedron -/

theorem tetrahedron_pairs {T : Type} [Zero T] (indexMax a b c d : Nat) :
    (Mesh.tetrahedron indexMax a b c d : Mesh T).halfEdgeVertexPairs =
      [some (a, b), some (b, c), some (c, a), some (a, c), some (c, d), some (d, a),
       some (b, a), some (a, d), some (d, b), some (c, b), some (b, d), some (d, c)] := by
  simp [Mesh.halfEdgeVertexPairs, Mesh.tetrahedron, Mesh.getVertexIndicesOfHalfEdge]

/-- C20: in `Mesh(a, b, c, d)` every half-edge `e` of `0..11` has exactly one
half-edge `p` with `m_next == e`, and the origin that
`getVertexIndicesOfHalfEdge` reports for `e` is the end vertex of `p`; for
pairwise distinct `a, b, c, d` the twelve reported pairs are the ordered pairs
of distinct vertices of `a, b, c, d`, each of them once. -/
theorem tetrahedron_head_to_tail {T : Type} [Zero T] (indexMax a b c d : Nat) :
    (∀ e : Nat, e < 12 → ∃ (p : Nat) (he hp : HalfEdge),
      (Mesh.tetrahedron indexMax a b c d : Mesh T).m_halfEdges[p]? = some hp ∧
      hp.m_next = e ∧
      (∀ (q : Nat) (hq : HalfEdge),
        (Mesh.tetrahedron indexMax a b c d : Mesh T).m_halfEdges[q]? = some hq →
        hq.m_next = e → q = p) ∧
      (Mesh.tetrahedron indexMax a b c d : Mesh T).m_halfEdges[e]? = some he ∧
      (Mesh.tetrahedron indexMax a b c d : Mesh T).getVertexIndicesOfHalfEdge he
        = some (hp.m_endVertex, he.m_endVertex)) ∧
    ([a, b, c, d].Nodup →
      (Mesh.tetrahedron indexMax a b c d : Mesh T).halfEdgeVertexPairs.length = 12 ∧
      (Mesh.tetrahedron indexMax a b c d : Mesh T).halfEdgeVertexPairs.Nodup ∧
      ∀ u v : Nat, some (u, v) ∈ (Mesh.tetrahedron indexMax a b c d : Mesh T).halfEdgeVertexPairs ↔
        (u ∈ [a, b, c, d] ∧ v ∈ [a, b, c, d] ∧ u ≠ v)) := by
  constructor
  · intro e he
    have huniq : ∀ (q : Nat) (hq : HalfEdge),
        (Mesh.tetrahedron indexMax a b c d : Mesh T).m_halfEdges[q]? = some hq →
        q < 12 ∧ hq.m_next = [1, 2, 0, 4, 5, 3, 7, 8, 6, 10, 11, 9].getD q 0 := by
      intro q hq hget
      have hlt : q < 12 := (List.getElem?_eq_some.mp hget).1
      refine ⟨hlt, ?_⟩
      interval_cases q <;> simp [Mesh.tetrahedron] at hget <;> rw [← hget] <;> rfl
    interval_cases e
    · refine ⟨2, _, _, rfl, rfl, ?_, rfl, rfl⟩
      intro q hq hget hnext
      obtain ⟨hlt, htab⟩ := huniq q hq hget
      rw [htab] at hnext
      interval_cases q <;> simp at hnext ⊢
    · refine ⟨0, _, _, rfl, rfl, ?_, rfl, rfl⟩
      intro q hq hget hnext
      obtain ⟨hlt, htab⟩ := huniq q hq hget
      rw [htab] at hnext
      interval_cases q <;> simp at hnext ⊢
    · refine ⟨1, _, _, rfl, rfl, ?_, rfl, rfl⟩
      intro q hq hget hnext
      obtain ⟨hlt, htab⟩ := huniq q hq hget
      rw [htab] at hnext
      interval_cases q <;> simp at hnext ⊢
    · refine ⟨5, _, _, rfl, rfl, ?_, rfl, rfl⟩
      intro q hq hget hnext
      obtain ⟨hlt, htab⟩ := huniq q hq hget
      rw [htab] at hnext
      interval_cases q <;> simp at hnext ⊢
    · refine ⟨3, _, _, rfl, rfl, ?_, rfl, rfl⟩
      intro q hq hget hnext
      obtain ⟨hlt, htab⟩ := huniq q hq hget
      rw [htab] at hnext
      interval_cases q <;> simp at hnext ⊢
    · refine ⟨4, _, _, rfl, rfl, ?_, rfl, rfl⟩
      intro q hq hget hnext
      obtain ⟨hlt, htab⟩ := huniq q hq hget
      rw [htab] at hnext
      interval_cases q <;> simp at hnext ⊢
    · refine ⟨8, _, _, rfl, rfl, ?_, rfl, rfl⟩
      intro q hq hget hnext
      obtain ⟨hlt, htab⟩ := huniq q hq hget
      rw [htab] at hnext
      interval_cases q <;> simp at hnext ⊢
    · refine ⟨6, _, _, rfl, rfl, ?_, rfl, rfl⟩
      intro q hq hget hnext
      obtain ⟨hlt, htab⟩ := huniq q hq hget
      rw [htab] at hnext
      interval_cases q <;> simp at hnext ⊢
    · refine ⟨7, _, _, rfl, rfl, ?_, rfl, rfl⟩
      intro q hq hget hnext
      obtain ⟨hlt, htab⟩ := huniq q hq hget
      rw [htab] at hnext
      interval_cases q <;> simp at hnext ⊢
    · refine ⟨11, _, _, rfl, rfl, ?_, rfl, rfl⟩
      intro q hq hget hnext
      obtain ⟨hlt, htab⟩ := huniq q hq hget
      rw [htab] at hnext
      interval_cases q <;> simp at hnext ⊢
    · refine ⟨9, _, _, rfl, rfl, ?_, rfl, rfl⟩
      intro q hq hget hnext
      obtain ⟨hlt, htab⟩ := huniq q hq hget
      rw [htab] at hnext
      interval_cases q <;> simp at hnext ⊢
    · refine ⟨10, _, _, rfl, rfl, ?_, rfl, rfl⟩
      intro q hq hget hnext
      obtain ⟨hlt, htab⟩ := huniq q hq hget
      rw [htab] at hnext
      interval_cases q <;> simp at hnext ⊢
  · intro hnd
    simp only [List.nodup_cons, List.mem_cons, List.mem_singleton, List.not_mem_nil,
      or_false, not_or, not_false_eq_true, List.nodup_nil, and_true] at hnd
    obtain ⟨⟨hab, hac, had⟩, ⟨hbc, hbd⟩, hcd⟩ := hnd
    rw [tetrahedron_pairs]
    refine ⟨rfl, ?_, ?_⟩
    · simp [hab, hac, had, hbc, hbd, hcd, Ne.symm hab, Ne.symm hac, Ne.symm had,
        Ne.symm hbc, Ne.symm hbd, Ne.symm hcd]
    · intro u v
      simp only [List.mem_cons, List.mem_singleton, List.not_mem_nil, or_false,
        Option.some.injEq, Prod.mk.injEq]
      constructor
      · intro hpair
        have hsplit : ∀ x y : Nat, u = x ∧ v = y → x ≠ y →
            (x = a ∨ x = b ∨ x = c ∨ x = d) → (y = a ∨ y = b ∨ y = c ∨ y = d) →
            (u = a ∨ u = b ∨ u = c ∨ u = d) ∧ (v = a ∨ v = b ∨ v = c ∨ v = d) ∧ u ≠ v := by
          intro x y hxy hne hx hy
          rw [hxy.1, hxy.2]
          exact ⟨hx, hy, hne⟩
        rcases hpair with h1 | h2 | h3 | h4 | h5 | h6 | h7 | h8 | h9 | h10 | h11 | h12
        · exact hsplit a b h1 hab (by simp) (by simp)
        · exact hsplit b c h2 hbc (by simp) (by simp)
        · exact hsplit c a h3 (Ne.symm hac) (by simp) (by simp)
        · exact hsplit a c h4 hac (by simp) (by simp)
        · exact hsplit c d h5 hcd (by simp) (by simp)
        · exact hsplit d a h6 (Ne.symm had) (by simp) (by simp)
        · exact hsplit b a h7 (Ne.symm hab) (by simp) (by simp)
        · exact hsplit a d h8 had (by simp) (by simp)
        · exact hsplit d b h9 (Ne.symm hbd) (by simp) (by simp)
        · exact hsplit c b h10 (Ne.symm hbc) (by simp) (by simp)
        · exact hsplit b d h11 hbd (by simp) (by simp)
        · exact hsplit d c h12 (Ne.symm hcd) (by simp) (by simp)
      · rintro ⟨hu, hv, hne⟩
        rcases hu with rfl | rfl | rfl | rfl <;> rcases hv with rfl | rfl | rfl | rfl <;>
          simp [hab, hac, had, hbc, hbd, hcd, Ne.symm hab, Ne.symm hac, Ne.symm had,
            Ne.symm hbc, Ne.symm hbd, Ne.symm hcd] at hne ⊢

/-- C20, at `Mesh(0, 1, 2, 3)`: the twelve reported pairs. -/
theorem tetrahedron_head_to_tail_witness :
    [0, 1, 2, 3].Nodup ∧
    (Mesh.tetrahedron 255 0 1 2 3 : Mesh ℚ).halfEdgeVertexPairs =
      [some (0, 1), some (1, 2), some (2, 0), some (0, 2), some (2, 3), some (3, 0),
       some (1, 0), some (0, 3), some (3, 1), some (2, 1), some (1, 3), some (3, 2)] ∧
    (Mesh.tetrahedron 255 0 1 2 3 : Mesh ℚ).halfEdgeVertexPairs.length = 12 ∧
    (Mesh.tetrahedron 255 0 1 2 3 : Mesh ℚ).halfEdgeVertexPairs.Nodup ∧
    ∀ u v : Nat, some (u, v) ∈ (Mesh.tetrahedron 255 0 1 2 3 : Mesh ℚ).halfEdgeVertexPairs ↔
      (u ∈ [0, 1, 2, 3] ∧ v ∈ [0, 1, 2, 3] ∧ u ≠ v) :=
  ⟨by decide, rfl, (@tetrahedron_head_to_tail ℚ _ 255 0 1 2 3).2 (by decide)⟩

end quickhull
